import Mathlib

/-!
# Counter machine interpreter (`main.c`)

A shallow embedding of the interpreter: the streaming instruction reader
(`read_number`, `read_address`, `read_jump`, `read_next`), the execution engine
(`execute`), the driver loop (`read_and_execute`) and the reporter
(`print_resulting_state`, `main`).

Conventions of the embedding.

* `stdin` is the list of the bytes still to be read.  `getchar()` takes the head
  of the list and yields `EOF` on the empty list; `ungetc(c, stdin)` puts `c` back
  in front and does nothing for `c = EOF`.
* `unsigned short` values are natural numbers reduced modulo `65536` where the
  code does arithmetic on them, `unsigned int` values modulo `4294967296`.
* `exit(n)` is the result `Result.exit f`, where `f` records the call site and the
  values printed in its diagnostic; `Failure.exitCode f` is `n`.
* an array access outside the array is the result `Result.undefined`.
* the loops of the driver take a fuel argument, one unit for each call of
  `read_next` or of `execute`; `none` means that the fuel ran out.
* `loop_trip` is one such trip on its own and `after_trips n` gives the variables
  of the loops after `n` trips; `run_loop` is the iteration of `loop_trip`
  (`run_loop_trip`), so the states a run reaches are those of `after_trips`.
-/

namespace CounterMachine

/-! ## Constants -/

def MAX_INSTRUCTIONS : Nat := 1024

def MAX_EXECUTION : Nat := 1000000

def MAX_MEMORY : Nat := 1024

/-- The value of `USHRT_MAX` for a 16 bit `unsigned short`. -/
def MAX_COUNTER_VALUE : Nat := 65535

/-- Number of values of an `unsigned short` (`INumber`, `Address`, `Counter`). -/
def USHORT_SIZE : Nat := 65536

/-- Number of values of an `unsigned int`. -/
def UINT_SIZE : Nat := 4294967296

/-- The character `'\n'`. -/
def CH_NEWLINE : Nat := 10

/-- The character `' '`. -/
def CH_SPACE : Nat := 32

/-- The character `'+'`. -/
def CH_PLUS : Nat := 43

/-- The character `'-'`. -/
def CH_MINUS : Nat := 45

/-- The character `'0'`. -/
def CH_ZERO : Nat := 48

/-- The character `'9'`. -/
def CH_NINE : Nat := 57

/-- The character `'?'`. -/
def CH_QUESTION : Nat := 63

/-! ## Data model -/

/-- The bytes that `stdin` still holds. -/
abbrev Stream := List Nat

/-- The bytes of a program text (one byte for each character of an ASCII text). -/
def text (s : String) : Stream := s.toList.map Char.toNat

/-- The bytes of the decimal literal of `n`. -/
def decimal (n : Nat) : Stream := text (Nat.repr n)

inductive Command where
  | INC
  | JZDEC
deriving DecidableEq, Repr

structure Instruction where
  command : Command
  address : Nat
  jump : Nat
deriving DecidableEq, Repr

structure State where
  instructions : Nat → Instruction
  current : Nat
  loaded : Nat
  executed : Nat
  counters : Nat → Nat
  used : Nat

/-- The state `State state = {0}` of `main`. -/
def State.zero : State :=
  { instructions := fun _ => { command := Command.INC, address := 0, jump := 0 }
    current := 0
    loaded := 0
    executed := 0
    counters := fun _ => 0
    used := 0 }

/-- The call sites of `exit`, each with the values its diagnostic prints. -/
inductive Failure where
  /-- `exit(100)` in `read_next`. -/
  | unexpectedCharacter (current : Nat) (c : Nat)
  /-- `exit(101)` in `validate_address`. -/
  | addressOutOfRange (current : Nat) (address : Nat)
  /-- `exit(102)` in `validate_inc`. -/
  | counterOverflow (current : Nat) (address : Nat)
  /-- `exit(103)` in `validate_jump`. -/
  | jumpTooLarge (current : Nat) (jumpTo : Nat)
  /-- `exit(104)` in `validate_jump`. -/
  | jumpZero (current : Nat) (jumpTo : Nat)
  /-- `exit(104)` in `read_address`. -/
  | addressParse (current : Nat)
  /-- `exit(105)` in `read_jump`; `c` is `none` for `EOF`. -/
  | questionExpected (current : Nat) (c : Option Nat)
  /-- `exit(106)` in `read_jump`. -/
  | jumpParse (current : Nat)
  /-- `exit(107)` in `read_and_execute`. -/
  | tableFull
  /-- `exit(1)` in `execute`. -/
  | tooManyOperations (executed : Nat) (current : Nat)
deriving DecidableEq, Repr

/-- The argument of `exit` at each call site. -/
def Failure.exitCode : Failure → Nat
  | Failure.unexpectedCharacter _ _ => 100
  | Failure.addressOutOfRange _ _ => 101
  | Failure.counterOverflow _ _ => 102
  | Failure.jumpTooLarge _ _ => 103
  | Failure.jumpZero _ _ => 104
  | Failure.addressParse _ => 104
  | Failure.questionExpected _ _ => 105
  | Failure.jumpParse _ => 106
  | Failure.tableFull => 107
  | Failure.tooManyOperations _ _ => 1

/-- What a call does: it returns, the process exits, or it reads or writes
outside an array. -/
inductive Result (α : Type) where
  | ok (value : α)
  | exit (failure : Failure)
  | undefined

/-! ## Validation -/

/-- Function `validate_address`: the failure it exits with, `none` when it returns. -/
def validate_address (current : Nat) (address : Nat) : Option Failure :=
  if address ≥ MAX_MEMORY then some (Failure.addressOutOfRange current address)
  else none

/-- Function `validate_inc`: the failure it exits with, `none` when it returns. -/
def validate_inc (value : Nat) (current : Nat) (address : Nat) : Option Failure :=
  if value = MAX_COUNTER_VALUE then some (Failure.counterOverflow current address)
  else none

/-- Function `validate_jump`: the failure it exits with, `none` when it returns. -/
def validate_jump (current : Nat) (jumpTo : Nat) : Option Failure :=
  if jumpTo > MAX_INSTRUCTIONS then some (Failure.jumpTooLarge current jumpTo)
  else if jumpTo = 0 then some (Failure.jumpZero current jumpTo)
  else none

/-! ## Execution engine -/

/-- The `switch` of `execute`: the effect of the instruction on the counter and
on the instruction pointer. -/
def execute_switch (state : State) (instruction : Instruction) : Result State :=
  let address := instruction.address
  let counter := state.counters address
  match instruction.command with
  | Command.INC =>
    match validate_inc counter state.current address with
    | some failure => Result.exit failure
    | none =>
      Result.ok { state with
        counters := Function.update state.counters address ((counter + 1) % USHORT_SIZE)
        current := (state.current + 1) % USHORT_SIZE }
  | Command.JZDEC =>
    if counter > 0 then
      Result.ok { state with
        counters := Function.update state.counters address (counter - 1)
        current := (state.current + 1) % USHORT_SIZE }
    else
      Result.ok { state with current := instruction.jump }

/-- Function `execute`.  The fetch `state->instructions[state->current - 1]` is
outside the array for `current = 0` and for `current > MAX_INSTRUCTIONS`, and
`state->counters[address]` is outside the array for `address >= MAX_MEMORY`. -/
def execute (state : State) : Result State :=
  if state.current = 0 ∨ state.current > MAX_INSTRUCTIONS then Result.undefined
  else
    let instruction := state.instructions (state.current - 1)
    if instruction.address ≥ MAX_MEMORY then Result.undefined
    else
      match execute_switch state instruction with
      | Result.ok stepped =>
        let counted := { stepped with executed := (stepped.executed + 1) % UINT_SIZE }
        if counted.executed > MAX_EXECUTION then
          Result.exit (Failure.tooManyOperations counted.executed counted.current)
        else Result.ok counted
      | Result.exit failure => Result.exit failure
      | Result.undefined => Result.undefined

/-! ## Instruction reader -/

/-- The `while` loop of `read_number` together with the `ungetc` after it.  The
stream argument starts with the character held in `c`: a digit is folded into
`n` and the next character is fetched; anything else (also `EOF`) ends the loop
and stays in the stream. -/
def read_number_loop (n : Nat) : Stream → Nat × Stream
  | [] => (n, [])
  | c :: rest =>
    if CH_ZERO ≤ c ∧ c ≤ CH_NINE then
      read_number_loop ((n * 10 + c - CH_ZERO) % UINT_SIZE) rest
    else (n, c :: rest)

/-- Function `read_number`: `none` for the result `false` (the character read is
then not put back), otherwise the number and the stream after it. -/
def read_number (input : Stream) : Option Nat × Stream :=
  match input with
  | [] => (none, [])
  | c :: rest =>
    if c < CH_ZERO ∨ CH_NINE < c then (none, rest)
    else
      let parsed := read_number_loop 0 (c :: rest)
      (some parsed.1, parsed.2)

/-- Function `read_address`; the result is converted to `Address`. -/
def read_address (current : Nat) (input : Stream) : Result (Nat × Stream) :=
  match read_number input with
  | (none, _) => Result.exit (Failure.addressParse current)
  | (some address, rest) =>
    match validate_address current address with
    | some failure => Result.exit failure
    | none => Result.ok (address % USHORT_SIZE, rest)

/-- Function `read_jump`; the result is converted to `INumber`. -/
def read_jump (current : Nat) (input : Stream) : Result (Nat × Stream) :=
  match input with
  | [] => Result.exit (Failure.questionExpected current none)
  | c :: rest =>
    if c ≠ CH_QUESTION then Result.exit (Failure.questionExpected current (some c))
    else
      match read_number rest with
      | (none, _) => Result.exit (Failure.jumpParse current)
      | (some inumber, rest2) =>
        match validate_jump current inumber with
        | some failure => Result.exit failure
        | none => Result.ok (inumber % USHORT_SIZE, rest2)

/-- Function `read_next`.  The arguments `instruction` and `used` are the values
behind the two pointers; the result holds `finish`, the two values as the call
leaves them and the stream.  One trip through the `while` loop is one unfolding:
a space, or a newline that is not followed by a newline (the character after it
is put back), continues with the rest of the stream. -/
def read_next (current : Nat) (instruction : Instruction) (used : Nat) :
    Stream → Result (Bool × Instruction × Nat × Stream)
  | [] => Result.ok (true, instruction, used, [])
  | c :: rest =>
    if c = CH_PLUS then
      match read_address current rest with
      | Result.ok (address, rest2) =>
        Result.ok (false, { instruction with command := Command.INC, address := address },
          (if address > used then address else used), rest2)
      | Result.exit failure => Result.exit failure
      | Result.undefined => Result.undefined
    else if c = CH_MINUS then
      match read_address current rest with
      | Result.ok (address, rest2) =>
        match read_jump current rest2 with
        | Result.ok (jump, rest3) =>
          Result.ok (false, { command := Command.JZDEC, address := address, jump := jump },
            (if address > used then address else used), rest3)
        | Result.exit failure => Result.exit failure
        | Result.undefined => Result.undefined
      | Result.exit failure => Result.exit failure
      | Result.undefined => Result.undefined
    else if c = CH_NEWLINE then
      if rest.head? = some CH_NEWLINE then Result.ok (true, instruction, used, rest.tail)
      else read_next current instruction used rest
    else if c = CH_SPACE then read_next current instruction used rest
    else Result.exit (Failure.unexpectedCharacter current c)

/-! ## Driver loop -/

/-- The loops of `read_and_execute`, one trip for each unit of fuel: a trip
through the inner loop when `current > loaded` (one call of `read_next`),
otherwise the call of `execute` after it.  `instruction` is the local variable
of that name.  The store `state->instructions[state->loaded++]` is inside the
array, as `loaded < current <= MAX_INSTRUCTIONS` there.  The result holds
whether the warning was printed, the state and the stream at the `return`. -/
def run_loop : Nat → State → Instruction → Stream → Option (Result (Bool × State × Stream))
  | 0, _, _, _ => none
  | fuel + 1, state, instruction, input =>
    if state.current > state.loaded then
      if state.current > MAX_INSTRUCTIONS then some (Result.exit Failure.tableFull)
      else
        match read_next ((state.loaded + 1) % USHORT_SIZE) instruction state.used input with
        | Result.ok (finish, instruction2, used2, rest) =>
          let state2 := { state with used := used2 }
          if finish then
            some (Result.ok (decide (state2.current ≠ state2.loaded + 1), state2, rest))
          else
            run_loop fuel
              { state2 with
                instructions := Function.update state2.instructions state2.loaded instruction2
                loaded := (state2.loaded + 1) % USHORT_SIZE }
              instruction2 rest
        | Result.exit failure => some (Result.exit failure)
        | Result.undefined => some Result.undefined
    else
      match execute state with
      | Result.ok state2 => run_loop fuel state2 instruction input
      | Result.exit failure => some (Result.exit failure)
      | Result.undefined => some Result.undefined

/-- Function `read_and_execute`.  `instruction` is the content of the local
variable of that name, which the code does not set before the first read. -/
def read_and_execute (fuel : Nat) (state : State) (instruction : Instruction)
    (input : Stream) : Option (Result (Bool × State × Stream)) :=
  run_loop fuel { state with current := 1 } instruction input

/-! ## Reporter -/

/-- What `print_resulting_state` prints: the three numbers of the summary line
and the counter lines, `none` for the line "All counters are zero.". -/
structure Report where
  total_instructions : Nat
  executed : Nat
  counters_used : Nat
  lines : Option (List (Nat × Nat))
deriving DecidableEq, Repr

/-- The `while` loop of `print_resulting_state` on `last_address`. -/
def last_address_loop (counters : Nat → Nat) : Nat → Nat
  | 0 => 0
  | a + 1 => if counters (a + 1) = 0 then last_address_loop counters a else a + 1

/-- Function `print_resulting_state`; `state->counters[last_address]` is outside
the array for `used >= MAX_MEMORY`. -/
def print_resulting_state (state : State) : Result Report :=
  if state.used ≥ MAX_MEMORY then Result.undefined
  else
    let last_address := last_address_loop state.counters state.used
    Result.ok
      { total_instructions := state.loaded
        executed := state.executed
        counters_used := state.used + 1
        lines :=
          if last_address = 0 ∧ state.counters last_address = 0 then none
          else some ((List.range (last_address + 1)).map (fun i => (i, state.counters i))) }

/-- Function `main`: the report it prints before `return 0`, or how the run ends
otherwise. -/
def main (fuel : Nat) (instruction : Instruction) (input : Stream) :
    Option (Result Report) :=
  match read_and_execute fuel State.zero instruction input with
  | none => none
  | some (Result.ok (_, state, _)) => some (print_resulting_state state)
  | some (Result.exit failure) => some (Result.exit failure)
  | some Result.undefined => some Result.undefined

/-! ## Comparing runs -/

/-- The outcome of a run with `f` applied to the stream that the run leaves. -/
def with_rest (f : Stream → Stream) :
    Option (Result (Bool × State × Stream)) → Option (Result (Bool × State × Stream))
  | none => none
  | some (Result.ok (warning, state, rest)) => some (Result.ok (warning, state, f rest))
  | some (Result.exit failure) => some (Result.exit failure)
  | some Result.undefined => some Result.undefined

/-! ## Sample states -/

/-- A state with one loaded instruction, the pointer on it, and every counter
at `counter`. -/
def State.sample (command : Command) (address jump counter executed : Nat) : State :=
  { instructions := fun _ => { command := command, address := address, jump := jump }
    current := 1
    loaded := 1
    executed := executed
    counters := fun _ => counter
    used := address }

/-! ## Text between instructions -/

/-- Whether the stream is a run of spaces and newlines in which no newline is
followed at once by another newline. -/
def skippable : Stream → Bool
  | [] => true
  | c :: rest =>
    (c == CH_SPACE || (c == CH_NEWLINE && rest.head? != some CH_NEWLINE)) && skippable rest

/-! ## The driver loop trip by trip -/

/-- The variables of the loops of `read_and_execute`: the state, the local
variable `instruction` and `stdin`. -/
structure Config where
  state : State
  instruction : Instruction
  input : Stream

/-- What one trip through the loops of `read_and_execute` does: the loops go on
with new values of the variables, or the function returns or the process exits. -/
inductive Trip where
  | next (config : Config)
  | stop (result : Result (Bool × State × Stream))

/-- One trip through the loops of `read_and_execute`, the body of `run_loop`:
with `current > loaded` one trip through the inner loop, otherwise the call of
`execute`. -/
def loop_trip (config : Config) : Trip :=
  if config.state.current > config.state.loaded then
    if config.state.current > MAX_INSTRUCTIONS then Trip.stop (Result.exit Failure.tableFull)
    else
      match read_next ((config.state.loaded + 1) % USHORT_SIZE) config.instruction
          config.state.used config.input with
      | Result.ok (finish, instruction2, used2, rest) =>
        if finish then
          Trip.stop (Result.ok (decide (config.state.current ≠ config.state.loaded + 1),
            { config.state with used := used2 }, rest))
        else
          Trip.next
            { state :=
                { config.state with
                  used := used2
                  instructions :=
                    Function.update config.state.instructions config.state.loaded instruction2
                  loaded := (config.state.loaded + 1) % USHORT_SIZE }
              instruction := instruction2
              input := rest }
      | Result.exit failure => Trip.stop (Result.exit failure)
      | Result.undefined => Trip.stop Result.undefined
  else
    match execute config.state with
    | Result.ok state2 => Trip.next { config with state := state2 }
    | Result.exit failure => Trip.stop (Result.exit failure)
    | Result.undefined => Trip.stop Result.undefined

/-- The variables after `n` trips through the loops, `none` when the run has
stopped before. -/
def after_trips : Nat → Config → Option Config
  | 0, config => some config
  | n + 1, config =>
    match loop_trip config with
    | Trip.next config2 => after_trips n config2
    | Trip.stop _ => none

/-- The variables when `read_and_execute`, called by `main`, enters its loops. -/
def start (instruction : Instruction) (input : Stream) : Config :=
  { state := { State.zero with current := 1 }
    instruction := instruction
    input := input }

/-- The invariants of the data model. -/
def Invariant (state : State) : Prop :=
  state.loaded ≤ MAX_INSTRUCTIONS ∧
  1 ≤ state.current ∧
  (∀ a, state.counters a ≤ MAX_COUNTER_VALUE) ∧
  (∀ i, i < state.loaded → (state.instructions i).address < MAX_MEMORY) ∧
  (∀ i, i < state.loaded → (state.instructions i).command = Command.JZDEC →
    1 ≤ (state.instructions i).jump ∧ (state.instructions i).jump ≤ MAX_INSTRUCTIONS) ∧
  state.executed ≤ MAX_EXECUTION

/-- The maximum of the addresses of the first `loaded` instructions, 0 when
there is none. -/
def highest_loaded_address (instructions : Nat → Instruction) : Nat → Nat
  | 0 => 0
  | loaded + 1 => max (highest_loaded_address instructions loaded) (instructions loaded).address

/-! ## Sample runs -/

/-- The content of the local variable `instruction` in the sample runs. -/
def Instruction.zero : Instruction := { command := Command.INC, address := 0, jump := 0 }

/-- The variables of the run on "+0\n\n" after the first trip: the instruction
is loaded. -/
def Config.loaded_increment : Config :=
  { state :=
      { instructions := Function.update State.zero.instructions 0
          { command := Command.INC, address := 0, jump := 0 }
        current := 1
        loaded := 1
        executed := 0
        counters := State.zero.counters
        used := 0 }
    instruction := { command := Command.INC, address := 0, jump := 0 }
    input := text "\n\n" }

/-- The variables of the run on "+0\n\n" after the second trip: the instruction
is executed. -/
def Config.executed_increment : Config :=
  { state :=
      { instructions := Function.update State.zero.instructions 0
          { command := Command.INC, address := 0, jump := 0 }
        current := 2
        loaded := 1
        executed := 1
        counters := Function.update State.zero.counters 0 1
        used := 0 }
    instruction := { command := Command.INC, address := 0, jump := 0 }
    input := text "\n\n" }

/-- The state in which the run on "-0?2\n\n" returns: the one instruction has
jumped to instruction number 2, one behind the loaded program. -/
def State.jumped_behind : State :=
  { instructions := Function.update State.zero.instructions 0
      { command := Command.JZDEC, address := 0, jump := 2 }
    current := 2
    loaded := 1
    executed := 1
    counters := State.zero.counters
    used := 0 }

/-- The variables of the run on "-0?3\n+0\n+0\n\n" after two trips: instruction
1 is loaded and has jumped to instruction number 3. -/
def Config.jumped_ahead : Config :=
  { state :=
      { instructions := Function.update State.zero.instructions 0
          { command := Command.JZDEC, address := 0, jump := 3 }
        current := 3
        loaded := 1
        executed := 1
        counters := State.zero.counters
        used := 0 }
    instruction := { command := Command.JZDEC, address := 0, jump := 3 }
    input := text "\n+0\n+0\n\n" }

/-- The variables of the same run after three trips: instruction 2 is loaded,
the pointer is still ahead of the loaded program. -/
def Config.still_ahead : Config :=
  { state :=
      { instructions := Function.update
          (Function.update State.zero.instructions 0
            { command := Command.JZDEC, address := 0, jump := 3 })
          1 { command := Command.INC, address := 0, jump := 3 }
        current := 3
        loaded := 2
        executed := 1
        counters := State.zero.counters
        used := 0 }
    instruction := { command := Command.INC, address := 0, jump := 3 }
    input := text "\n+0\n\n" }

/-- The variables of the run on "+7\n\n" after the first trip: the instruction
is loaded and `used` is 7. -/
def Config.loaded_seven : Config :=
  { state :=
      { instructions := Function.update State.zero.instructions 0
          { command := Command.INC, address := 7, jump := 0 }
        current := 1
        loaded := 1
        executed := 0
        counters := State.zero.counters
        used := 7 }
    instruction := { command := Command.INC, address := 7, jump := 0 }
    input := text "\n\n" }

/-- The program text of `n` instructions "+0", one after the other. -/
def increments : Nat → Stream
  | 0 => []
  | n + 1 => CH_PLUS :: CH_ZERO :: increments n

/-! ## Engine steps -/

theorem execute_eq_of_switch (state stepped : State)
    (hpos : 1 ≤ state.current) (hcap : state.current ≤ MAX_INSTRUCTIONS)
    (hmem : (state.instructions (state.current - 1)).address < MAX_MEMORY)
    (hswitch : execute_switch state (state.instructions (state.current - 1))
      = Result.ok stepped) :
    execute state =
      if (stepped.executed + 1) % UINT_SIZE > MAX_EXECUTION then
        Result.exit (Failure.tooManyOperations ((stepped.executed + 1) % UINT_SIZE)
          stepped.current)
      else Result.ok { stepped with executed := (stepped.executed + 1) % UINT_SIZE } := by
  have h1 : ¬ (state.current = 0 ∨ state.current > MAX_INSTRUCTIONS) := by omega
  have h2 : ¬ ((state.instructions (state.current - 1)).address ≥ MAX_MEMORY) := by omega
  simp only [execute, h1, h2, if_false, hswitch]

theorem execute_switch_inc (state : State) (instruction : Instruction)
    (hcmd : instruction.command = Command.INC)
    (hcounter : state.counters instruction.address ≠ MAX_COUNTER_VALUE) :
    execute_switch state instruction = Result.ok
      { state with
        counters := Function.update state.counters instruction.address
          ((state.counters instruction.address + 1) % USHORT_SIZE)
        current := (state.current + 1) % USHORT_SIZE } := by
  simp only [execute_switch, hcmd, validate_inc, hcounter, if_false]

theorem execute_switch_jzdec_pos (state : State) (instruction : Instruction)
    (hcmd : instruction.command = Command.JZDEC)
    (hcounter : 0 < state.counters instruction.address) :
    execute_switch state instruction = Result.ok
      { state with
        counters := Function.update state.counters instruction.address
          (state.counters instruction.address - 1)
        current := (state.current + 1) % USHORT_SIZE } := by
  simp only [execute_switch, hcmd, gt_iff_lt, hcounter, if_true]

theorem execute_switch_jzdec_zero (state : State) (instruction : Instruction)
    (hcmd : instruction.command = Command.JZDEC)
    (hcounter : state.counters instruction.address = 0) :
    execute_switch state instruction
      = Result.ok { state with current := instruction.jump } := by
  simp only [execute_switch, hcmd, gt_iff_lt, hcounter, lt_irrefl, if_false]

theorem execute_switch_ok (state : State) (instruction : Instruction)
    (hstep : instruction.command = Command.INC →
      state.counters instruction.address ≠ MAX_COUNTER_VALUE) :
    ∃ stepped, execute_switch state instruction = Result.ok stepped ∧
      stepped.executed = state.executed := by
  cases hc : instruction.command
  · exact ⟨_, execute_switch_inc state instruction hc (hstep hc), rfl⟩
  · by_cases hz : state.counters instruction.address = 0
    · exact ⟨_, execute_switch_jzdec_zero state instruction hc hz, rfl⟩
    · exact ⟨_, execute_switch_jzdec_pos state instruction hc (Nat.pos_of_ne_zero hz), rfl⟩

theorem run_loop_finish_at_end (fuel : Nat) (state : State) (instruction : Instruction)
    (hnext : state.current = state.loaded + 1)
    (hcap : state.current ≤ MAX_INSTRUCTIONS) :
    run_loop (fuel + 1) state instruction [] = some (Result.ok (false, state, [])) := by
  have h1 : state.current > state.loaded := by omega
  have h2 : ¬ state.current > MAX_INSTRUCTIONS := by omega
  have h3 : decide (state.current ≠ state.loaded + 1) = false := by
    simp only [hnext, ne_eq, not_true, decide_False]
  simp only [run_loop, h1, h2, if_true, if_false, read_next, h3]

theorem run_loop_execute (fuel : Nat) (state next : State) (instruction : Instruction)
    (input : Stream) (hcur : state.current ≤ state.loaded)
    (hstep : execute state = Result.ok next) :
    run_loop (fuel + 1) state instruction input = run_loop fuel next instruction input := by
  have h1 : ¬ state.current > state.loaded := by omega
  simp only [run_loop, h1, if_false, hstep]

/-! ## The engine claims -/

/-- C1: a step on a loaded Increment instruction whose counter is below
`MAX_COUNTER_VALUE`, taken with `executed` below `MAX_EXECUTION`, succeeds; the
counter, the instruction pointer and `executed` each grow by exactly 1, and the
other counters, the instructions, `loaded` and `used` stay as they were. -/
theorem execute_increment (state : State) (address : Nat)
    (hpos : 1 ≤ state.current) (hloaded : state.current ≤ state.loaded)
    (hcap : state.loaded ≤ MAX_INSTRUCTIONS)
    (hcmd : (state.instructions (state.current - 1)).command = Command.INC)
    (haddr : (state.instructions (state.current - 1)).address = address)
    (hmem : address < MAX_MEMORY)
    (hcounter : state.counters address < MAX_COUNTER_VALUE)
    (hexec : state.executed < MAX_EXECUTION) :
    ∃ next, execute state = Result.ok next ∧
      next.counters address = state.counters address + 1 ∧
      next.current = state.current + 1 ∧
      next.executed = state.executed + 1 ∧
      (∀ other, other ≠ address → next.counters other = state.counters other) ∧
      next.instructions = state.instructions ∧
      next.loaded = state.loaded ∧
      next.used = state.used := by
  subst haddr
  have hcur : state.current ≤ MAX_INSTRUCTIONS := le_trans hloaded hcap
  have hne : state.counters (state.instructions (state.current - 1)).address
      ≠ MAX_COUNTER_VALUE := Nat.ne_of_lt hcounter
  have hrun := execute_eq_of_switch state _ hpos hcur hmem
    (execute_switch_inc state _ hcmd hne)
  simp only [MAX_INSTRUCTIONS, MAX_COUNTER_VALUE, MAX_EXECUTION, USHORT_SIZE, UINT_SIZE]
    at *
  have h4 : (state.executed + 1) % 4294967296 = state.executed + 1 := by omega
  have h5 : ¬ (state.executed + 1 > 1000000) := by omega
  have h6 : (state.counters (state.instructions (state.current - 1)).address + 1) % 65536
      = state.counters (state.instructions (state.current - 1)).address + 1 := by omega
  have h7 : (state.current + 1) % 65536 = state.current + 1 := by omega
  rw [h4, h6, h7, if_neg h5] at hrun
  refine ⟨_, hrun, ?_, rfl, rfl, ?_, rfl, rfl, rfl⟩
  · simp
  · intro other hother
    simp [Function.update_noteq hother]

theorem execute_increment_witness :
    ∃ next, execute (State.sample Command.INC 3 0 7 0) = Result.ok next ∧
      next.counters 3 = (State.sample Command.INC 3 0 7 0).counters 3 + 1 ∧
      next.current = (State.sample Command.INC 3 0 7 0).current + 1 ∧
      next.executed = (State.sample Command.INC 3 0 7 0).executed + 1 ∧
      (∀ other, other ≠ 3 →
        next.counters other = (State.sample Command.INC 3 0 7 0).counters other) ∧
      next.instructions = (State.sample Command.INC 3 0 7 0).instructions ∧
      next.loaded = (State.sample Command.INC 3 0 7 0).loaded ∧
      next.used = (State.sample Command.INC 3 0 7 0).used :=
  execute_increment (State.sample Command.INC 3 0 7 0) 3 (by decide) (by decide)
    (by decide) rfl rfl (by decide) (by decide) (by decide)

/-- C2: a step on a loaded Increment instruction whose counter equals
`MAX_COUNTER_VALUE` exits with the counter overflow failure, exit code 102; no
state is returned, so the counter neither wraps to 0 nor stays at 65535. -/
theorem execute_increment_overflow (state : State) (address : Nat)
    (hpos : 1 ≤ state.current) (hloaded : state.current ≤ state.loaded)
    (hcap : state.loaded ≤ MAX_INSTRUCTIONS)
    (hcmd : (state.instructions (state.current - 1)).command = Command.INC)
    (haddr : (state.instructions (state.current - 1)).address = address)
    (hmem : address < MAX_MEMORY)
    (hcounter : state.counters address = MAX_COUNTER_VALUE) :
    execute state = Result.exit (Failure.counterOverflow state.current address) ∧
      (Failure.counterOverflow state.current address).exitCode = 102 ∧
      MAX_COUNTER_VALUE = 65535 ∧
      ∀ next, execute state ≠ Result.ok next := by
  subst haddr
  have h1 : ¬ (state.current = 0 ∨ state.current > MAX_INSTRUCTIONS) := by omega
  have h2 : ¬ ((state.instructions (state.current - 1)).address ≥ MAX_MEMORY) := by omega
  have hrun : execute state = Result.exit (Failure.counterOverflow state.current
      (state.instructions (state.current - 1)).address) := by
    simp only [execute, h1, h2, if_false, execute_switch, hcmd, validate_inc, hcounter,
      if_true]
  refine ⟨hrun, rfl, rfl, ?_⟩
  intro next hnext
  rw [hrun] at hnext
  cases hnext

theorem execute_increment_overflow_witness :
    execute (State.sample Command.INC 3 0 65535 0)
        = Result.exit (Failure.counterOverflow 1 3) ∧
      (Failure.counterOverflow 1 3).exitCode = 102 ∧
      MAX_COUNTER_VALUE = 65535 ∧
      ∀ next, execute (State.sample Command.INC 3 0 65535 0) ≠ Result.ok next :=
  execute_increment_overflow (State.sample Command.INC 3 0 65535 0) 3 (by decide)
    (by decide) (by decide) rfl rfl (by decide) rfl

/-- C3: a step on a loaded JumpIfZeroElseDecrement instruction whose counter is
0, taken with `executed` below `MAX_EXECUTION`, succeeds, leaves every counter
as it was and sets the instruction pointer to exactly the jump target. -/
theorem execute_jump_on_zero (state : State) (address jump_target : Nat)
    (hpos : 1 ≤ state.current) (hloaded : state.current ≤ state.loaded)
    (hcap : state.loaded ≤ MAX_INSTRUCTIONS)
    (hcmd : (state.instructions (state.current - 1)).command = Command.JZDEC)
    (haddr : (state.instructions (state.current - 1)).address = address)
    (hjump : (state.instructions (state.current - 1)).jump = jump_target)
    (hmem : address < MAX_MEMORY)
    (hcounter : state.counters address = 0)
    (hexec : state.executed < MAX_EXECUTION) :
    ∃ next, execute state = Result.ok next ∧
      next.counters = state.counters ∧
      next.counters address = 0 ∧
      next.current = jump_target ∧
      next.executed = state.executed + 1 := by
  subst haddr hjump
  have hcur : state.current ≤ MAX_INSTRUCTIONS := le_trans hloaded hcap
  have hrun := execute_eq_of_switch state _ hpos hcur hmem
    (execute_switch_jzdec_zero state _ hcmd hcounter)
  simp only [MAX_EXECUTION, UINT_SIZE] at *
  have h4 : (state.executed + 1) % 4294967296 = state.executed + 1 := by omega
  have h5 : ¬ (state.executed + 1 > 1000000) := by omega
  rw [h4, if_neg h5] at hrun
  exact ⟨_, hrun, rfl, hcounter, rfl, rfl⟩

theorem execute_jump_on_zero_witness :
    ∃ next, execute (State.sample Command.JZDEC 5 9 0 0) = Result.ok next ∧
      next.counters = (State.sample Command.JZDEC 5 9 0 0).counters ∧
      next.counters 5 = 0 ∧
      next.current = 9 ∧
      next.executed = (State.sample Command.JZDEC 5 9 0 0).executed + 1 :=
  execute_jump_on_zero (State.sample Command.JZDEC 5 9 0 0) 5 9 (by decide) (by decide)
    (by decide) rfl rfl rfl (by decide) rfl (by decide)

/-- C4: a step on a loaded JumpIfZeroElseDecrement instruction whose counter is
above 0, taken with `executed` below `MAX_EXECUTION`, succeeds, lowers that
counter by exactly 1, raises the instruction pointer by exactly 1 whatever the
jump target is, and leaves every other counter as it was. -/
theorem execute_decrement (state : State) (address : Nat)
    (hpos : 1 ≤ state.current) (hloaded : state.current ≤ state.loaded)
    (hcap : state.loaded ≤ MAX_INSTRUCTIONS)
    (hcmd : (state.instructions (state.current - 1)).command = Command.JZDEC)
    (haddr : (state.instructions (state.current - 1)).address = address)
    (hmem : address < MAX_MEMORY)
    (hcounter : 0 < state.counters address)
    (hexec : state.executed < MAX_EXECUTION) :
    ∃ next, execute state = Result.ok next ∧
      next.counters address + 1 = state.counters address ∧
      next.current = state.current + 1 ∧
      next.executed = state.executed + 1 ∧
      ∀ other, other ≠ address → next.counters other = state.counters other := by
  subst haddr
  have hcur : state.current ≤ MAX_INSTRUCTIONS := le_trans hloaded hcap
  have hrun := execute_eq_of_switch state _ hpos hcur hmem
    (execute_switch_jzdec_pos state _ hcmd hcounter)
  simp only [MAX_INSTRUCTIONS, MAX_EXECUTION, USHORT_SIZE, UINT_SIZE] at *
  have h4 : (state.executed + 1) % 4294967296 = state.executed + 1 := by omega
  have h5 : ¬ (state.executed + 1 > 1000000) := by omega
  have h7 : (state.current + 1) % 65536 = state.current + 1 := by omega
  rw [h4, h7, if_neg h5] at hrun
  refine ⟨_, hrun, ?_, rfl, rfl, ?_⟩
  · simp only [Function.update_same]
    omega
  · intro other hother
    simp [Function.update_noteq hother]

theorem execute_decrement_witness :
    ∃ next, execute (State.sample Command.JZDEC 5 9 7 0) = Result.ok next ∧
      next.counters 5 + 1 = (State.sample Command.JZDEC 5 9 7 0).counters 5 ∧
      next.current = (State.sample Command.JZDEC 5 9 7 0).current + 1 ∧
      next.executed = (State.sample Command.JZDEC 5 9 7 0).executed + 1 ∧
      ∀ other, other ≠ 5 →
        next.counters other = (State.sample Command.JZDEC 5 9 7 0).counters other :=
  execute_decrement (State.sample Command.JZDEC 5 9 7 0) 5 (by decide) (by decide)
    (by decide) rfl rfl (by decide) (by decide) (by decide)

/-- C5: the step ceiling is exact.  Take a state with a loaded instruction at
the pointer whose step does not fail otherwise.  The step exits with the too
many operations failure reporting the count `MAX_EXECUTION + 1` exactly when
`executed` is `MAX_EXECUTION` before it; for a state of the data model
(`executed` at most `MAX_EXECUTION`) the step exits with code 1 exactly when
`executed` is `MAX_EXECUTION` before it; with `executed` below `MAX_EXECUTION`
the step succeeds; and a run whose step number `MAX_EXECUTION` leads just behind
the loaded program, with the input at its end, returns normally without a
warning. -/
theorem step_ceiling_exact (state : State)
    (hpos : 1 ≤ state.current) (hloaded : state.current ≤ state.loaded)
    (hcap : state.loaded ≤ MAX_INSTRUCTIONS)
    (hmem : (state.instructions (state.current - 1)).address < MAX_MEMORY)
    (hstep : (state.instructions (state.current - 1)).command = Command.INC →
      state.counters (state.instructions (state.current - 1)).address ≠ MAX_COUNTER_VALUE)
    (hrange : state.executed < UINT_SIZE) :
    ((∃ pointer, execute state
          = Result.exit (Failure.tooManyOperations (MAX_EXECUTION + 1) pointer))
        ↔ state.executed = MAX_EXECUTION) ∧
      (state.executed ≤ MAX_EXECUTION →
        ((∃ failure, execute state = Result.exit failure ∧ failure.exitCode = 1)
          ↔ state.executed = MAX_EXECUTION)) ∧
      (state.executed < MAX_EXECUTION → ∃ next,
        execute state = Result.ok next ∧ next.executed = state.executed + 1) ∧
      (∀ (next : State) (fuel : Nat) (instruction : Instruction),
        execute state = Result.ok next → next.executed = MAX_EXECUTION →
        next.current = next.loaded + 1 → next.current ≤ MAX_INSTRUCTIONS →
        run_loop (fuel + 2) state instruction [] = some (Result.ok (false, next, []))) ∧
      MAX_EXECUTION = 1000000 := by
  have hcur : state.current ≤ MAX_INSTRUCTIONS := le_trans hloaded hcap
  obtain ⟨stepped, hswitch, hsame⟩ := execute_switch_ok state _ hstep
  have hrun := execute_eq_of_switch state stepped hpos hcur hmem hswitch
  rw [hsame] at hrun
  have hfail : state.executed = MAX_EXECUTION → execute state
      = Result.exit (Failure.tooManyOperations (MAX_EXECUTION + 1) stepped.current) := by
    intro heq
    rw [hrun, heq]
    simp only [MAX_EXECUTION, UINT_SIZE]
    rfl
  have hgood : state.executed < MAX_EXECUTION → execute state
      = Result.ok { stepped with executed := state.executed + 1 } := by
    intro hlt
    simp only [MAX_EXECUTION, UINT_SIZE] at *
    have h4 : (state.executed + 1) % 4294967296 = state.executed + 1 := by omega
    have h5 : ¬ (state.executed + 1 > 1000000) := by omega
    rw [hrun, h4, if_neg h5]
  refine ⟨⟨?_, ?_⟩, ?_, ?_, ?_, rfl⟩
  · rintro ⟨pointer, hexit⟩
    rw [hrun] at hexit
    by_cases hover : (state.executed + 1) % UINT_SIZE > MAX_EXECUTION
    · rw [if_pos hover] at hexit
      injection hexit with hsame2
      injection hsame2 with hcount _
      simp only [MAX_EXECUTION, UINT_SIZE] at *
      omega
    · rw [if_neg hover] at hexit
      cases hexit
  · intro heq
    exact ⟨_, hfail heq⟩
  · intro hinv
    constructor
    · rintro ⟨failure, hexit, _⟩
      by_contra hne
      have hlt : state.executed < MAX_EXECUTION := lt_of_le_of_ne hinv hne
      rw [hgood hlt] at hexit
      cases hexit
    · intro heq
      exact ⟨_, hfail heq, rfl⟩
  · intro hlt
    exact ⟨_, hgood hlt, rfl⟩
  · intro next fuel instruction hnext _ hend hfit
    rw [run_loop_execute (fuel + 1) state next instruction [] hloaded hnext]
    exact run_loop_finish_at_end fuel next instruction hend hfit

theorem step_ceiling_exact_witness :
    ((∃ pointer, execute (State.sample Command.JZDEC 5 9 0 1000000)
          = Result.exit (Failure.tooManyOperations (MAX_EXECUTION + 1) pointer))
        ↔ (State.sample Command.JZDEC 5 9 0 1000000).executed = MAX_EXECUTION) ∧
      ((State.sample Command.JZDEC 5 9 0 1000000).executed ≤ MAX_EXECUTION →
        ((∃ failure, execute (State.sample Command.JZDEC 5 9 0 1000000)
            = Result.exit failure ∧ failure.exitCode = 1)
          ↔ (State.sample Command.JZDEC 5 9 0 1000000).executed = MAX_EXECUTION)) ∧
      ((State.sample Command.JZDEC 5 9 0 1000000).executed < MAX_EXECUTION → ∃ next,
        execute (State.sample Command.JZDEC 5 9 0 1000000) = Result.ok next ∧
          next.executed = (State.sample Command.JZDEC 5 9 0 1000000).executed + 1) ∧
      (∀ (next : State) (fuel : Nat) (instruction : Instruction),
        execute (State.sample Command.JZDEC 5 9 0 1000000) = Result.ok next →
        next.executed = MAX_EXECUTION →
        next.current = next.loaded + 1 → next.current ≤ MAX_INSTRUCTIONS →
        run_loop (fuel + 2) (State.sample Command.JZDEC 5 9 0 1000000) instruction []
          = some (Result.ok (false, next, []))) ∧
      MAX_EXECUTION = 1000000 :=
  step_ceiling_exact (State.sample Command.JZDEC 5 9 0 1000000) (by decide) (by decide)
    (by decide) (by decide) (fun h => by cases h) (by decide)

/-! ## Runs of the driver loop -/

theorem run_loop_succ (fuel : Nat) (state : State) (instruction : Instruction)
    (input : Stream) :
    run_loop (fuel + 1) state instruction input =
      if state.current > state.loaded then
        if state.current > MAX_INSTRUCTIONS then some (Result.exit Failure.tableFull)
        else
          match read_next ((state.loaded + 1) % USHORT_SIZE) instruction state.used input with
          | Result.ok (finish, instruction2, used2, rest) =>
            if finish then
              some (Result.ok (decide (state.current ≠ state.loaded + 1),
                { state with used := used2 }, rest))
            else
              run_loop fuel
                { state with
                  used := used2
                  instructions := Function.update state.instructions state.loaded instruction2
                  loaded := (state.loaded + 1) % USHORT_SIZE }
                instruction2 rest
          | Result.exit failure => some (Result.exit failure)
          | Result.undefined => some Result.undefined
      else
        match execute state with
        | Result.ok state2 => run_loop fuel state2 instruction input
        | Result.exit failure => some (Result.exit failure)
        | Result.undefined => some Result.undefined := by
  rw [run_loop]

theorem run_loop_mono (k : Nat) (fuel : Nat) :
    ∀ (state : State) (instruction : Instruction) (input : Stream)
      (r : Result (Bool × State × Stream)),
      run_loop fuel state instruction input = some r →
      run_loop (fuel + k) state instruction input = some r := by
  induction fuel with
  | zero =>
    intro state instruction input r h
    simp only [run_loop] at h
    cases h
  | succ n ih =>
    intro state instruction input r h
    have e : n + 1 + k = (n + k) + 1 := by omega
    rw [e, run_loop_succ]
    rw [run_loop_succ] at h
    by_cases h1 : state.current > state.loaded
    · simp only [h1, if_true] at h ⊢
      by_cases h2 : state.current > MAX_INSTRUCTIONS
      · simp only [h2, if_true] at h ⊢
        exact h
      · simp only [h2, if_false] at h ⊢
        cases hr : read_next ((state.loaded + 1) % USHORT_SIZE) instruction state.used input with
        | ok value =>
          obtain ⟨finish, instruction2, used2, rest⟩ := value
          simp only [hr] at h ⊢
          cases finish
          · simp only [Bool.false_eq_true, if_false] at h ⊢
            exact ih _ _ _ _ h
          · simp only [if_true] at h ⊢
            exact h
        | exit failure =>
          simp only [hr] at h ⊢
          exact h
        | undefined =>
          simp only [hr] at h ⊢
          exact h
    · simp only [h1, if_false] at h ⊢
      cases hs : execute state with
      | ok next =>
        simp only [hs] at h ⊢
        exact ih _ _ _ _ h
      | exit failure =>
        simp only [hs] at h ⊢
        exact h
      | undefined =>
        simp only [hs] at h ⊢
        exact h

theorem run_loop_agree (fuel1 fuel2 : Nat) (state : State) (instruction : Instruction)
    (input : Stream) (r1 r2 : Result (Bool × State × Stream))
    (h1 : run_loop fuel1 state instruction input = some r1)
    (h2 : run_loop fuel2 state instruction input = some r2) : r1 = r2 := by
  have e1 := run_loop_mono fuel2 fuel1 state instruction input r1 h1
  have e2 := run_loop_mono fuel1 fuel2 state instruction input r2 h2
  rw [Nat.add_comm] at e2
  rw [e1] at e2
  injection e2

theorem execute_self_jump (state : State) (address : Nat)
    (hcur : state.current = 1)
    (hinstr : state.instructions 0
      = { command := Command.JZDEC, address := address, jump := 1 })
    (hmem : address < MAX_MEMORY)
    (hzero : state.counters address = 0) :
    execute state =
      if (state.executed + 1) % UINT_SIZE > MAX_EXECUTION then
        Result.exit (Failure.tooManyOperations ((state.executed + 1) % UINT_SIZE) 1)
      else Result.ok { state with executed := (state.executed + 1) % UINT_SIZE } := by
  have hfetch : state.instructions (state.current - 1)
      = { command := Command.JZDEC, address := address, jump := 1 } := by
    rw [hcur]; exact hinstr
  have hpos : 1 ≤ state.current := by omega
  have hcap : state.current ≤ MAX_INSTRUCTIONS := by
    rw [hcur]; decide
  have hrun := execute_eq_of_switch state { state with current := 1 } hpos hcap
    (by rw [hfetch]; exact hmem)
    (by
      rw [hfetch]
      exact execute_switch_jzdec_zero state _ rfl hzero)
  rw [hrun]
  simp only [hcur]

theorem run_loop_self_jump (address : Nat) (hmem : address < MAX_MEMORY) (n : Nat) :
    ∀ (state : State) (instruction : Instruction) (input : Stream) (k : Nat),
      state.current = 1 → 1 ≤ state.loaded →
      state.instructions 0 = { command := Command.JZDEC, address := address, jump := 1 } →
      state.counters address = 0 →
      state.executed + n = MAX_EXECUTION →
      run_loop (n + 1 + k) state instruction input
        = some (Result.exit (Failure.tooManyOperations (MAX_EXECUTION + 1) 1)) := by
  induction n with
  | zero =>
    intro state instruction input k hcur hloaded hinstr hzero hexec
    have e : 0 + 1 + k = k + 1 := by omega
    have h1 : ¬ state.current > state.loaded := by omega
    have h2 : state.executed = MAX_EXECUTION := by omega
    have h3 : (MAX_EXECUTION + 1) % UINT_SIZE = MAX_EXECUTION + 1 := by decide
    have h4 : MAX_EXECUTION + 1 > MAX_EXECUTION := by omega
    rw [e, run_loop_succ, if_neg h1, execute_self_jump state address hcur hinstr hmem hzero,
      h2, h3, if_pos h4]
  | succ n ih =>
    intro state instruction input k hcur hloaded hinstr hzero hexec
    have e : n + 1 + 1 + k = (n + 1 + k) + 1 := by omega
    have h1 : ¬ state.current > state.loaded := by omega
    have h3 : (state.executed + 1) % UINT_SIZE = state.executed + 1 := by
      have hM : MAX_EXECUTION = 1000000 := rfl
      have hlt : state.executed < 1000000 := by omega
      show (state.executed + 1) % 4294967296 = state.executed + 1
      omega
    have h4 : ¬ state.executed + 1 > MAX_EXECUTION := by omega
    rw [e, run_loop_succ, if_neg h1, execute_self_jump state address hcur hinstr hmem hzero,
      h3, if_neg h4]
    exact ih _ instruction input k hcur hloaded hinstr hzero (by simp only; omega)

theorem run_self_jump_text (instruction : Instruction) (fuel : Nat)
    (hfuel : MAX_EXECUTION + 2 ≤ fuel) :
    read_and_execute fuel State.zero instruction (text "-5?1\n\n")
      = some (Result.exit (Failure.tooManyOperations (MAX_EXECUTION + 1) 1)) := by
  obtain ⟨k, hk⟩ := Nat.exists_eq_add_of_le hfuel
  have e : fuel = (MAX_EXECUTION + 1 + k) + 1 := by omega
  have hread : read_next ((State.zero.loaded + 1) % USHORT_SIZE) instruction State.zero.used
      (text "-5?1\n\n")
      = Result.ok (false, { command := Command.JZDEC, address := 5, jump := 1 }, 5,
          [CH_NEWLINE, CH_NEWLINE]) := rfl
  have h1 : (1 : Nat) > State.zero.loaded := by decide
  have h2 : ¬ (1 : Nat) > MAX_INSTRUCTIONS := by decide
  unfold read_and_execute
  rw [e, run_loop_succ]
  simp only [h1, h2, if_true, if_false, hread, Bool.false_eq_true]
  exact run_loop_self_jump 5 (by decide) MAX_EXECUTION _ _ _ k rfl (by decide) rfl rfl
    (by simp only [State.zero]; omega)

theorem main_self_jump_text (instruction : Instruction) (fuel : Nat)
    (hfuel : MAX_EXECUTION + 2 ≤ fuel) :
    main fuel instruction (text "-5?1\n\n")
      = some (Result.exit (Failure.tooManyOperations (MAX_EXECUTION + 1) 1)) := by
  unfold main
  rw [run_self_jump_text instruction fuel hfuel]

theorem run_increment_text (instruction : Instruction) (k : Nat) :
    read_and_execute (3 + k) State.zero instruction (text "+0\n\n")
      = some (Result.ok (false,
          { instructions := Function.update State.zero.instructions 0
              { command := Command.INC, address := 0, jump := instruction.jump }
            current := 2
            loaded := 1
            executed := 1
            counters := Function.update State.zero.counters 0 1
            used := 0 }, [])) :=
  run_loop_mono k 3 _ _ _ _ rfl

theorem run_increment_decrement_text (instruction : Instruction) (k : Nat) :
    read_and_execute (5 + k) State.zero instruction (text "+0\n-0?1\n\n")
      = some (Result.ok (false,
          { instructions := Function.update
              (Function.update State.zero.instructions 0
                { command := Command.INC, address := 0, jump := instruction.jump })
              1 { command := Command.JZDEC, address := 0, jump := 1 }
            current := 3
            loaded := 2
            executed := 2
            counters := Function.update (Function.update State.zero.counters 0 1) 0 0
            used := 0 }, [])) :=
  run_loop_mono k 5 _ _ _ _ rfl

/-! ## The claims on the sample programs -/

/-- C6 (counterexample): on the text "+0\n-0?1\n\n" the run returns normally
after 2 steps, and `main` prints its report; the step ceiling is not hit. -/
theorem increment_decrement_text_returns :
    read_and_execute 5 State.zero { command := Command.INC, address := 0, jump := 0 }
        (text "+0\n-0?1\n\n")
      = some (Result.ok (false,
          { instructions := Function.update
              (Function.update State.zero.instructions 0
                { command := Command.INC, address := 0, jump := 0 })
              1 { command := Command.JZDEC, address := 0, jump := 1 }
            current := 3
            loaded := 2
            executed := 2
            counters := Function.update (Function.update State.zero.counters 0 1) 0 0
            used := 0 }, [])) ∧
      main 5 { command := Command.INC, address := 0, jump := 0 } (text "+0\n-0?1\n\n")
        = some (Result.ok
            { total_instructions := 2, executed := 2, counters_used := 1, lines := none }) :=
  ⟨rfl, rfl⟩

/-- C6 (amended): on the text "+0\n-0?1\n\n", from the all-zero state, the run
returns normally without a warning after 2 steps, with 2 instructions loaded,
the pointer at 3 and every counter 0 (instruction 2 lowers counter 0 from 1 to
0 and falls through to the end of the program); however much fuel is given the
run never ends in a failure, and `main` prints the report. -/
theorem run_increment_then_decrement (instruction : Instruction) (k : Nat) :
    (∃ state, read_and_execute (5 + k) State.zero instruction (text "+0\n-0?1\n\n")
        = some (Result.ok (false, state, [])) ∧
      state.executed = 2 ∧ state.loaded = 2 ∧ state.current = 3 ∧
      (∀ a, state.counters a = 0) ∧ state.used = 0) ∧
    main (5 + k) instruction (text "+0\n-0?1\n\n")
      = some (Result.ok
          { total_instructions := 2, executed := 2, counters_used := 1, lines := none }) ∧
    ∀ fuel failure,
      read_and_execute fuel State.zero instruction (text "+0\n-0?1\n\n")
        ≠ some (Result.exit failure) := by
  have hrun := run_increment_decrement_text instruction k
  refine ⟨⟨_, hrun, rfl, rfl, rfl, ?_, rfl⟩, ?_, ?_⟩
  · intro a
    by_cases ha : a = 0
    · subst ha
      simp
    · simp [State.zero, Function.update_noteq ha]
  · simp only [main, hrun]
    rfl
  · intro fuel failure hfail
    have hsame := run_loop_agree _ _ _ _ _ _ _ hfail hrun
    cases hsame

/-- C7 (counterexample): on the text "-5?1\n\n" the run does not return; it
exits with the step ceiling failure, and `main` prints no report. -/
theorem self_jump_text_exits :
    read_and_execute (MAX_EXECUTION + 2) State.zero
        { command := Command.INC, address := 0, jump := 0 } (text "-5?1\n\n")
      = some (Result.exit (Failure.tooManyOperations (MAX_EXECUTION + 1) 1)) ∧
    main (MAX_EXECUTION + 2) { command := Command.INC, address := 0, jump := 0 }
        (text "-5?1\n\n")
      = some (Result.exit (Failure.tooManyOperations (MAX_EXECUTION + 1) 1)) :=
  ⟨run_self_jump_text _ _ (Nat.le_refl _), main_self_jump_text _ _ (Nat.le_refl _)⟩

/-- C7 (amended): on the text "-5?1\n\n", from the all-zero state, the run never
returns normally: the one instruction finds counter 5 at 0 and jumps to itself,
so the run exits with the step ceiling failure (exit code 1) reporting
`MAX_EXECUTION + 1` executed steps at instruction 1, and `main` prints no
report. -/
theorem run_self_jump (instruction : Instruction) (k : Nat) :
    read_and_execute (MAX_EXECUTION + 2 + k) State.zero instruction (text "-5?1\n\n")
      = some (Result.exit (Failure.tooManyOperations (MAX_EXECUTION + 1) 1)) ∧
    (Failure.tooManyOperations (MAX_EXECUTION + 1) 1).exitCode = 1 ∧
    main (MAX_EXECUTION + 2 + k) instruction (text "-5?1\n\n")
      = some (Result.exit (Failure.tooManyOperations (MAX_EXECUTION + 1) 1)) ∧
    ∀ fuel warning state rest,
      read_and_execute fuel State.zero instruction (text "-5?1\n\n")
        ≠ some (Result.ok (warning, state, rest)) := by
  have hrun := run_self_jump_text instruction (MAX_EXECUTION + 2 + k) (Nat.le_add_right _ _)
  refine ⟨hrun, rfl, main_self_jump_text _ _ (Nat.le_add_right _ _), ?_⟩
  intro fuel warning state rest hok
  have hsame := run_loop_agree _ _ _ _ _ _ _ hok hrun
  cases hsame

/-- C8: on the input "+0\n\n" followed by the end of the input, from the
all-zero state, the run returns normally without a warning, with one loaded
instruction (Increment of counter 0), counter 0 at 1, every other counter at 0
and one executed step. -/
theorem run_single_increment (instruction : Instruction) (k : Nat) :
    ∃ state, read_and_execute (3 + k) State.zero instruction (text "+0\n\n")
        = some (Result.ok (false, state, [])) ∧
      state.loaded = 1 ∧
      (state.instructions 0).command = Command.INC ∧
      (state.instructions 0).address = 0 ∧
      state.counters 0 = 1 ∧
      (∀ a, a ≠ 0 → state.counters a = 0) ∧
      state.executed = 1 := by
  refine ⟨_, run_increment_text instruction k, rfl, rfl, rfl, rfl, ?_, rfl⟩
  intro a ha
  simp [State.zero, Function.update_noteq ha]

/-! ## Input cut off by a double newline -/

theorem read_number_loop_marked (x : Stream) :
    ∀ n : Nat, ∃ (m : Nat) (y : Stream), ∀ b : Stream,
      read_number_loop n (x ++ CH_NEWLINE :: CH_NEWLINE :: b)
        = (m, y ++ CH_NEWLINE :: CH_NEWLINE :: b) := by
  induction x with
  | nil =>
    intro n
    refine ⟨n, [], fun b => ?_⟩
    have hnl : ¬ (CH_ZERO ≤ CH_NEWLINE ∧ CH_NEWLINE ≤ CH_NINE) := by decide
    simp only [List.nil_append, read_number_loop, hnl, if_false]
  | cons c x ih =>
    intro n
    by_cases hd : CH_ZERO ≤ c ∧ c ≤ CH_NINE
    · obtain ⟨m, y, hy⟩ := ih ((n * 10 + c - CH_ZERO) % UINT_SIZE)
      refine ⟨m, y, fun b => ?_⟩
      simp only [List.cons_append, read_number_loop, hd, and_self, if_true]
      exact hy b
    · refine ⟨n, c :: x, fun b => ?_⟩
      simp only [List.cons_append, read_number_loop, hd, if_false]
      rfl

theorem read_number_marked (x : Stream) :
    (∃ (m : Nat) (y : Stream), ∀ b : Stream,
      read_number (x ++ CH_NEWLINE :: CH_NEWLINE :: b)
        = (some m, y ++ CH_NEWLINE :: CH_NEWLINE :: b)) ∨
    (∀ b : Stream, (read_number (x ++ CH_NEWLINE :: CH_NEWLINE :: b)).1 = none) := by
  cases x with
  | nil =>
    right
    intro b
    have hnl : CH_NEWLINE < CH_ZERO ∨ CH_NINE < CH_NEWLINE := by decide
    simp only [List.nil_append, read_number, hnl, if_true]
  | cons c x =>
    by_cases hd : c < CH_ZERO ∨ CH_NINE < c
    · right
      intro b
      simp only [List.cons_append, read_number, hd, if_true]
    · left
      obtain ⟨m, y, hy⟩ := read_number_loop_marked (c :: x) 0
      refine ⟨m, y, fun b => ?_⟩
      have hb := hy b
      simp only [List.cons_append] at hb
      simp only [List.cons_append, read_number, hd, if_false, hb]

theorem read_address_marked (current : Nat) (x : Stream) :
    (∃ (address : Nat) (y : Stream), ∀ b : Stream,
      read_address current (x ++ CH_NEWLINE :: CH_NEWLINE :: b)
        = Result.ok (address, y ++ CH_NEWLINE :: CH_NEWLINE :: b)) ∨
    (∃ failure : Failure, ∀ b : Stream,
      read_address current (x ++ CH_NEWLINE :: CH_NEWLINE :: b) = Result.exit failure) := by
  rcases read_number_marked x with ⟨m, y, hy⟩ | hnone
  · cases hv : validate_address current m with
    | none =>
      left
      refine ⟨m % USHORT_SIZE, y, fun b => ?_⟩
      simp only [read_address, hy b, hv]
    | some failure =>
      right
      refine ⟨failure, fun b => ?_⟩
      simp only [read_address, hy b, hv]
  · right
    refine ⟨Failure.addressParse current, fun b => ?_⟩
    have hb := hnone b
    unfold read_address
    cases hr : read_number (x ++ CH_NEWLINE :: CH_NEWLINE :: b) with
    | mk parsed rest =>
      rw [hr] at hb
      simp only at hb
      subst hb
      rfl

theorem read_jump_marked (current : Nat) (x : Stream) :
    (∃ (jump : Nat) (y : Stream), ∀ b : Stream,
      read_jump current (x ++ CH_NEWLINE :: CH_NEWLINE :: b)
        = Result.ok (jump, y ++ CH_NEWLINE :: CH_NEWLINE :: b)) ∨
    (∃ failure : Failure, ∀ b : Stream,
      read_jump current (x ++ CH_NEWLINE :: CH_NEWLINE :: b) = Result.exit failure) := by
  cases x with
  | nil =>
    right
    refine ⟨Failure.questionExpected current (some CH_NEWLINE), fun b => ?_⟩
    have hq : CH_NEWLINE ≠ CH_QUESTION := by decide
    simp only [List.nil_append, read_jump, hq, ne_eq, not_false_eq_true, if_true]
  | cons c x =>
    by_cases hq : c ≠ CH_QUESTION
    · right
      refine ⟨Failure.questionExpected current (some c), fun b => ?_⟩
      simp only [List.cons_append, read_jump, hq, ne_eq, not_false_eq_true, if_true]
    · rcases read_number_marked x with ⟨m, y, hy⟩ | hnone
      · cases hv : validate_jump current m with
        | none =>
          left
          refine ⟨m % USHORT_SIZE, y, fun b => ?_⟩
          simp only [List.cons_append, read_jump, hq, if_false, hy b, hv]
        | some failure =>
          right
          refine ⟨failure, fun b => ?_⟩
          simp only [List.cons_append, read_jump, hq, if_false, hy b, hv]
      · right
        refine ⟨Failure.jumpParse current, fun b => ?_⟩
        have hb := hnone b
        simp only [List.cons_append, read_jump, hq, if_false]
        cases hr : read_number (x ++ CH_NEWLINE :: CH_NEWLINE :: b) with
        | mk parsed rest =>
          rw [hr] at hb
          simp only at hb
          subst hb
          rfl

theorem read_next_marked (current : Nat) (instruction : Instruction) (used : Nat)
    (x : Stream) :
    (∃ (instruction2 : Instruction) (used2 : Nat) (y : Stream), ∀ b : Stream,
      read_next current instruction used (x ++ CH_NEWLINE :: CH_NEWLINE :: b)
        = Result.ok (false, instruction2, used2, y ++ CH_NEWLINE :: CH_NEWLINE :: b)) ∨
    (∃ (instruction2 : Instruction) (used2 : Nat) (y : Stream), ∀ b : Stream,
      read_next current instruction used (x ++ CH_NEWLINE :: CH_NEWLINE :: b)
        = Result.ok (true, instruction2, used2, y ++ b)) ∨
    (∃ failure : Failure, ∀ b : Stream,
      read_next current instruction used (x ++ CH_NEWLINE :: CH_NEWLINE :: b)
        = Result.exit failure) := by
  have d1 : ¬ CH_MINUS = CH_PLUS := by decide
  have d2 : ¬ CH_NEWLINE = CH_PLUS := by decide
  have d3 : ¬ CH_NEWLINE = CH_MINUS := by decide
  have d4 : ¬ CH_SPACE = CH_PLUS := by decide
  have d5 : ¬ CH_SPACE = CH_MINUS := by decide
  have d6 : ¬ CH_SPACE = CH_NEWLINE := by decide
  induction x with
  | nil =>
    right; left
    refine ⟨instruction, used, [], fun b => ?_⟩
    simp only [List.nil_append, read_next, d2, d3, if_false, if_true, List.head?_cons,
      List.tail_cons]
  | cons c x ih =>
    by_cases hplus : c = CH_PLUS
    · rcases read_address_marked current x with ⟨address, y, hy⟩ | ⟨failure, hf⟩
      · left
        refine ⟨{ instruction with command := Command.INC, address := address },
          (if address > used then address else used), y, fun b => ?_⟩
        simp only [List.cons_append, List.append_eq, read_next, d1, d2, d3, d4, d5, d6, hplus, if_true, hy b]
      · right; right
        refine ⟨failure, fun b => ?_⟩
        simp only [List.cons_append, List.append_eq, read_next, d1, d2, d3, d4, d5, d6, hplus, if_true, hf b]
    · by_cases hminus : c = CH_MINUS
      · rcases read_address_marked current x with ⟨address, y, hy⟩ | ⟨failure, hf⟩
        · rcases read_jump_marked current y with ⟨jump, z, hz⟩ | ⟨failure, hf⟩
          · left
            refine ⟨{ command := Command.JZDEC, address := address, jump := jump },
              (if address > used then address else used), z, fun b => ?_⟩
            simp only [List.cons_append, List.append_eq, read_next, d1, d2, d3, d4, d5, d6, hplus, hminus, if_true, if_false, hy b,
              hz b]
          · right; right
            refine ⟨failure, fun b => ?_⟩
            simp only [List.cons_append, List.append_eq, read_next, d1, d2, d3, d4, d5, d6, hplus, hminus, if_true, if_false, hy b,
              hf b]
        · right; right
          refine ⟨failure, fun b => ?_⟩
          simp only [List.cons_append, List.append_eq, read_next, d1, d2, d3, d4, d5, d6, hplus, hminus, if_true, if_false, hf b]
      · by_cases hnl : c = CH_NEWLINE
        · cases x with
          | nil =>
            right; left
            refine ⟨instruction, used, [CH_NEWLINE], fun b => ?_⟩
            simp only [List.cons_append, List.nil_append, List.append_eq, read_next, d1, d2, d3, d4, d5, d6, hplus, hminus, hnl,
              if_true, if_false, List.head?_cons, List.tail_cons]
          | cons d x =>
            by_cases hd : d = CH_NEWLINE
            · right; left
              refine ⟨instruction, used, x ++ [CH_NEWLINE, CH_NEWLINE], fun b => ?_⟩
              simp only [List.cons_append, List.append_eq, read_next, d1, d2, d3, d4, d5, d6, hplus, hminus, hnl, if_true, if_false,
                List.head?_cons, hd, List.tail_cons, List.append_assoc, List.nil_append]
            · have hhead : ¬ (some d = some CH_NEWLINE) := by
                intro h
                exact hd (Option.some.inj h)
              rcases ih with ⟨i, u, y, hy⟩ | ⟨i, u, y, hy⟩ | ⟨failure, hf⟩
              · left
                refine ⟨i, u, y, fun b => ?_⟩
                rw [← hy b]
                simp only [List.cons_append, List.append_eq, read_next, d1, d2, d3, d4, d5, d6, hplus, hminus, hnl, if_true,
                  if_false, List.head?_cons, hhead]
              · right; left
                refine ⟨i, u, y, fun b => ?_⟩
                rw [← hy b]
                simp only [List.cons_append, List.append_eq, read_next, d1, d2, d3, d4, d5, d6, hplus, hminus, hnl, if_true,
                  if_false, List.head?_cons, hhead]
              · right; right
                refine ⟨failure, fun b => ?_⟩
                rw [← hf b]
                simp only [List.cons_append, List.append_eq, read_next, d1, d2, d3, d4, d5, d6, hplus, hminus, hnl, if_true,
                  if_false, List.head?_cons, hhead]
        · by_cases hsp : c = CH_SPACE
          · rcases ih with ⟨i, u, y, hy⟩ | ⟨i, u, y, hy⟩ | ⟨failure, hf⟩
            · left
              refine ⟨i, u, y, fun b => ?_⟩
              rw [← hy b]
              simp only [List.cons_append, List.append_eq, read_next, d1, d2, d3, d4, d5, d6, hplus, hminus, hnl, hsp, if_true,
                if_false]
            · right; left
              refine ⟨i, u, y, fun b => ?_⟩
              rw [← hy b]
              simp only [List.cons_append, List.append_eq, read_next, d1, d2, d3, d4, d5, d6, hplus, hminus, hnl, hsp, if_true,
                if_false]
            · right; right
              refine ⟨failure, fun b => ?_⟩
              rw [← hf b]
              simp only [List.cons_append, List.append_eq, read_next, d1, d2, d3, d4, d5, d6, hplus, hminus, hnl, hsp, if_true,
                if_false]
          · right; right
            refine ⟨Failure.unexpectedCharacter current c, fun b => ?_⟩
            simp only [List.cons_append, List.append_eq, read_next, d1, d2, d3, d4, d5, d6, hplus, hminus, hnl, hsp, if_false]

theorem run_loop_marked (fuel : Nat) :
    ∀ (state : State) (instruction : Instruction) (x b : Stream),
      run_loop fuel state instruction (x ++ CH_NEWLINE :: CH_NEWLINE :: b)
        = with_rest (fun rest => rest ++ b)
            (run_loop fuel state instruction (x ++ CH_NEWLINE :: CH_NEWLINE :: [])) := by
  induction fuel with
  | zero =>
    intro state instruction x b
    simp only [run_loop, with_rest]
  | succ n ih =>
    intro state instruction x b
    rw [run_loop_succ, run_loop_succ]
    by_cases h1 : state.current > state.loaded
    · by_cases h2 : state.current > MAX_INSTRUCTIONS
      · simp only [h1, h2, if_true, with_rest]
      · simp only [h1, h2, if_true, if_false]
        rcases read_next_marked ((state.loaded + 1) % USHORT_SIZE) instruction state.used x
          with ⟨i, u, y, hy⟩ | ⟨i, u, y, hy⟩ | ⟨failure, hf⟩
        · simp only [hy b, hy [], Bool.false_eq_true, if_false]
          exact ih _ _ y b
        · simp only [hy b, hy [], if_true, with_rest, List.append_nil]
        · simp only [hf b, hf [], with_rest]
    · simp only [h1, if_false]
      cases hs : execute state with
      | ok next =>
        simp only [hs]
        exact ih _ _ x b
      | exit failure => simp only [hs, with_rest]
      | undefined => simp only [hs, with_rest]

/-- C9: a double newline cuts the input off.  For all streams `a` and `b`, every
state and every amount of fuel, the run on `a ++ "\n\n" ++ b` ends as the run
on `a ++ "\n\n"` does: the same return or the same failure, with the same
warning flag and the same state (instructions, counters, pointer, `executed`,
`used`), and the stream it leaves is the one the shorter run leaves followed by
all of `b`, so no character of `b` is read; `main` gives the same result. -/
theorem double_newline_cuts_input (fuel : Nat) (state : State) (instruction : Instruction)
    (a b : Stream) :
    read_and_execute fuel state instruction (a ++ text "\n\n" ++ b)
        = with_rest (fun rest => rest ++ b)
            (read_and_execute fuel state instruction (a ++ text "\n\n")) ∧
      with_rest (fun _ => []) (read_and_execute fuel state instruction (a ++ text "\n\n" ++ b))
        = with_rest (fun _ => [])
            (read_and_execute fuel state instruction (a ++ text "\n\n")) ∧
      main fuel instruction (a ++ text "\n\n" ++ b)
        = main fuel instruction (a ++ text "\n\n") := by
  have htext : text "\n\n" = CH_NEWLINE :: CH_NEWLINE :: [] := rfl
  have hlong : a ++ text "\n\n" ++ b = a ++ CH_NEWLINE :: CH_NEWLINE :: b := by
    rw [htext, List.append_assoc]
    rfl
  have hcut : ∀ start : State,
      read_and_execute fuel start instruction (a ++ text "\n\n" ++ b)
        = with_rest (fun rest => rest ++ b)
            (read_and_execute fuel start instruction (a ++ text "\n\n")) := by
    intro start
    rw [hlong, htext]
    exact run_loop_marked fuel _ instruction a b
  refine ⟨hcut state, ?_, ?_⟩
  · rw [hcut state]
    cases read_and_execute fuel state instruction (a ++ text "\n\n") with
    | none => rfl
    | some r =>
      cases r with
      | ok value => rfl
      | exit failure => rfl
      | undefined => rfl
  · unfold main
    rw [hcut State.zero]
    cases read_and_execute fuel State.zero instruction (a ++ text "\n\n") with
    | none => rfl
    | some r =>
      cases r with
      | ok value => rfl
      | exit failure => rfl
      | undefined => rfl

/-! ## Decimal literals and the zero jump target -/

theorem digitChar_toNat (d : Nat) (hd : d < 10) : (Nat.digitChar d).toNat = CH_ZERO + d := by
  interval_cases d <;> rfl

theorem toDigitsCore_append (fuel : Nat) :
    ∀ (n : Nat) (ds : List Char),
      Nat.toDigitsCore 10 fuel n ds = Nat.toDigitsCore 10 fuel n [] ++ ds := by
  induction fuel with
  | zero =>
    intro n ds
    simp only [Nat.toDigitsCore, List.nil_append]
  | succ fuel ih =>
    intro n ds
    by_cases h : n / 10 = 0
    · simp only [Nat.toDigitsCore, h, if_true, List.singleton_append]
    · simp only [Nat.toDigitsCore, h, if_false]
      rw [ih (n / 10) (Nat.digitChar (n % 10) :: ds), ih (n / 10) [Nat.digitChar (n % 10)],
        List.append_assoc, List.singleton_append]

theorem read_number_loop_digit (n d : Nat) (hd : d < 10) (rest : Stream) :
    read_number_loop n ((Nat.digitChar d).toNat :: rest)
      = read_number_loop ((n * 10 + d) % UINT_SIZE) rest := by
  have hcode := digitChar_toNat d hd
  have hrange : CH_ZERO ≤ (Nat.digitChar d).toNat ∧ (Nat.digitChar d).toNat ≤ CH_NINE := by
    rw [hcode]
    simp only [CH_ZERO, CH_NINE]
    omega
  have hvalue : n * 10 + (Nat.digitChar d).toNat - CH_ZERO = n * 10 + d := by
    rw [hcode]
    simp only [CH_ZERO]
    omega
  simp only [read_number_loop, hrange, and_self, if_true, hvalue]

theorem read_number_loop_toDigitsCore (fuel : Nat) :
    ∀ (n : Nat) (rest : Stream), n < fuel →
      read_number_loop 0 ((Nat.toDigitsCore 10 fuel n []).map Char.toNat ++ rest)
        = read_number_loop (n % UINT_SIZE) rest := by
  induction fuel with
  | zero =>
    intro n rest h
    omega
  | succ fuel ih =>
    intro n rest h
    have hd : n % 10 < 10 := Nat.mod_lt n (by decide)
    by_cases hz : n / 10 = 0
    · have hsmall : (0 * 10 + n % 10) % UINT_SIZE = n % UINT_SIZE := by
        have : n % 10 = n := by omega
        rw [this]
        simp
      simp only [Nat.toDigitsCore, hz, if_true, List.map_cons, List.map_nil,
        List.singleton_append]
      rw [read_number_loop_digit 0 (n % 10) hd rest, hsmall]
    · have hless : n / 10 < fuel := by omega
      have hstep : ((n / 10) % UINT_SIZE * 10 + n % 10) % UINT_SIZE = n % UINT_SIZE := by
        simp only [UINT_SIZE]
        omega
      simp only [Nat.toDigitsCore, hz, if_false]
      rw [toDigitsCore_append fuel (n / 10) [Nat.digitChar (n % 10)], List.map_append,
        List.append_assoc, List.map_cons, List.map_nil, List.singleton_append,
        ih (n / 10) _ hless, read_number_loop_digit _ (n % 10) hd rest, hstep]

theorem decimal_eq (n : Nat) :
    decimal n = (Nat.toDigitsCore 10 (n + 1) n []).map Char.toNat := rfl

theorem toDigitsCore_digits (fuel : Nat) :
    ∀ (n : Nat) (c : Char), c ∈ Nat.toDigitsCore 10 fuel n [] →
      CH_ZERO ≤ c.toNat ∧ c.toNat ≤ CH_NINE := by
  induction fuel with
  | zero =>
    intro n c hc
    simp only [Nat.toDigitsCore, List.not_mem_nil] at hc
  | succ fuel ih =>
    intro n c hc
    have hd : n % 10 < 10 := Nat.mod_lt n (by decide)
    have hlast : CH_ZERO ≤ (Nat.digitChar (n % 10)).toNat ∧
        (Nat.digitChar (n % 10)).toNat ≤ CH_NINE := by
      rw [digitChar_toNat _ hd]
      simp only [CH_ZERO, CH_NINE]
      omega
    by_cases hz : n / 10 = 0
    · simp only [Nat.toDigitsCore, hz, if_true, List.mem_singleton] at hc
      rw [hc]
      exact hlast
    · simp only [Nat.toDigitsCore, hz, if_false] at hc
      rw [toDigitsCore_append fuel (n / 10) [Nat.digitChar (n % 10)], List.mem_append,
        List.mem_singleton] at hc
      rcases hc with hc | hc
      · exact ih (n / 10) c hc
      · rw [hc]
        exact hlast

theorem toDigitsCore_ne_nil (fuel n : Nat) : Nat.toDigitsCore 10 (fuel + 1) n [] ≠ [] := by
  by_cases hz : n / 10 = 0
  · simp only [Nat.toDigitsCore, hz, if_true, ne_eq, List.cons_ne_nil, not_false_eq_true]
  · simp only [Nat.toDigitsCore, hz, if_false]
    rw [toDigitsCore_append fuel (n / 10) [Nat.digitChar (n % 10)]]
    simp

theorem decimal_head (n : Nat) :
    ∃ (c : Nat) (tail : Stream), decimal n = c :: tail ∧ CH_ZERO ≤ c ∧ c ≤ CH_NINE := by
  rw [decimal_eq]
  cases hlist : Nat.toDigitsCore 10 (n + 1) n [] with
  | nil => exact absurd hlist (toDigitsCore_ne_nil n n)
  | cons c tail =>
    refine ⟨c.toNat, tail.map Char.toNat, rfl, ?_⟩
    apply toDigitsCore_digits (n + 1) n c
    rw [hlist]
    exact List.mem_cons_self c tail

theorem read_number_loop_stop (n : Nat) (rest : Stream)
    (hrest : ∀ c ∈ rest.head?, ¬ (CH_ZERO ≤ c ∧ c ≤ CH_NINE)) :
    read_number_loop n rest = (n, rest) := by
  cases rest with
  | nil => rfl
  | cons c tail =>
    have hc := hrest c (by simp)
    simp only [read_number_loop, hc, if_false]

theorem read_number_decimal (n : Nat) (rest : Stream)
    (hrest : ∀ c ∈ rest.head?, ¬ (CH_ZERO ≤ c ∧ c ≤ CH_NINE)) :
    read_number (decimal n ++ rest) = (some (n % UINT_SIZE), rest) := by
  obtain ⟨c, tail, hsplit, hlow, hhigh⟩ := decimal_head n
  have hloop : read_number_loop 0 (decimal n ++ rest) = (n % UINT_SIZE, rest) := by
    rw [decimal_eq, read_number_loop_toDigitsCore (n + 1) n rest (Nat.lt_succ_self n)]
    exact read_number_loop_stop _ rest hrest
  have hdigit : ¬ (c < CH_ZERO ∨ CH_NINE < c) := by omega
  rw [hsplit] at hloop ⊢
  simp only [List.cons_append] at hloop ⊢
  simp only [read_number, hdigit, if_false, hloop]

theorem read_number_loop_zeros (k : Nat) (rest : Stream)
    (hrest : ∀ c ∈ rest.head?, ¬ (CH_ZERO ≤ c ∧ c ≤ CH_NINE)) :
    read_number_loop 0 (List.replicate k CH_ZERO ++ rest) = (0, rest) := by
  induction k with
  | zero => exact read_number_loop_stop 0 rest hrest
  | succ k ih =>
    have hz : CH_ZERO ≤ CH_ZERO ∧ CH_ZERO ≤ CH_NINE := by decide
    have hv : (0 * 10 + CH_ZERO - CH_ZERO) % UINT_SIZE = 0 := by decide
    simp only [List.replicate_succ, List.cons_append, read_number_loop, hz, and_self, if_true,
      hv]
    exact ih

theorem read_number_zeros (k : Nat) (rest : Stream)
    (hrest : ∀ c ∈ rest.head?, ¬ (CH_ZERO ≤ c ∧ c ≤ CH_NINE)) :
    read_number (List.replicate (k + 1) CH_ZERO ++ rest) = (some 0, rest) := by
  have hloop := read_number_loop_zeros (k + 1) rest hrest
  have hz : ¬ (CH_ZERO < CH_ZERO ∨ CH_NINE < CH_ZERO) := by decide
  simp only [List.replicate_succ, List.cons_append] at hloop ⊢
  simp only [read_number, hz, if_false, hloop]

theorem read_address_decimal (current a : Nat) (rest : Stream) (ha : a < MAX_MEMORY)
    (hrest : ∀ c ∈ rest.head?, ¬ (CH_ZERO ≤ c ∧ c ≤ CH_NINE)) :
    read_address current (decimal a ++ rest) = Result.ok (a, rest) := by
  have hsmall : a % UINT_SIZE = a := by
    simp only [MAX_MEMORY, UINT_SIZE] at *
    omega
  have hvalid : validate_address current a = none := by
    simp only [validate_address, ge_iff_le, Nat.not_le.mpr ha, if_false]
  have hshort : a % USHORT_SIZE = a := by
    simp only [MAX_MEMORY, USHORT_SIZE] at *
    omega
  simp only [read_address, read_number_decimal a rest hrest, hsmall, hvalid, hshort]

theorem read_jump_zero (current k : Nat) (rest : Stream)
    (hrest : ∀ c ∈ rest.head?, ¬ (CH_ZERO ≤ c ∧ c ≤ CH_NINE)) :
    read_jump current (CH_QUESTION :: (List.replicate (k + 1) CH_ZERO ++ rest))
      = Result.exit (Failure.jumpZero current 0) := by
  have hq : ¬ CH_QUESTION ≠ CH_QUESTION := by simp
  have hvalid : validate_jump current 0 = some (Failure.jumpZero current 0) := by
    simp only [validate_jump, MAX_INSTRUCTIONS, gt_iff_lt, Nat.not_lt_zero, if_false, if_true]
  simp only [read_jump, hq, if_false, read_number_zeros k rest hrest, hvalid]

theorem read_next_zero_jump (current : Nat) (instruction : Instruction) (used a k : Nat)
    (rest : Stream) (ha : a < MAX_MEMORY)
    (hrest : ∀ c ∈ rest.head?, ¬ (CH_ZERO ≤ c ∧ c ≤ CH_NINE)) :
    read_next current instruction used
        (CH_MINUS :: (decimal a ++ CH_QUESTION :: (List.replicate (k + 1) CH_ZERO ++ rest)))
      = Result.exit (Failure.jumpZero current 0) := by
  have hplus : ¬ CH_MINUS = CH_PLUS := by decide
  have hq : ∀ c ∈ (CH_QUESTION :: (List.replicate (k + 1) CH_ZERO ++ rest)).head?,
      ¬ (CH_ZERO ≤ c ∧ c ≤ CH_NINE) := by
    intro c hc
    simp only [List.head?_cons, Option.mem_def, Option.some.injEq] at hc
    subst hc
    decide
  simp only [read_next, hplus, if_false, if_true, read_address_decimal current a _ ha hq,
    read_jump_zero current k rest hrest]

/-- C10: for every instruction number and every address `a` below `MAX_MEMORY`,
reading "-a?0" (a jump literal of one or more zeros, followed by a character
that is not a digit or by the end of the input) exits in `read_next` with the
zero jump target failure, exit code 104; the counters play no part, as the
driver exits as soon as it reads the instruction, before any step on it; and a
jump target above `MAX_INSTRUCTIONS` is another failure, with exit code 103. -/
theorem zero_jump_target_rejected (current : Nat) (instruction : Instruction)
    (used a zeros : Nat) (rest : Stream) (ha : a < MAX_MEMORY)
    (hrest : ∀ c ∈ rest.head?, ¬ (CH_ZERO ≤ c ∧ c ≤ CH_NINE)) :
    read_next current instruction used
        (CH_MINUS :: (decimal a ++ CH_QUESTION :: (List.replicate (zeros + 1) CH_ZERO ++ rest)))
      = Result.exit (Failure.jumpZero current 0) ∧
    (Failure.jumpZero current 0).exitCode = 104 ∧
    (∀ target, target > MAX_INSTRUCTIONS →
      validate_jump current target = some (Failure.jumpTooLarge current target) ∧
      (Failure.jumpTooLarge current target).exitCode = 103 ∧
      Failure.jumpTooLarge current target ≠ Failure.jumpZero current 0) ∧
    (∀ (fuel : Nat) (state : State),
      state.loaded < state.current → state.current ≤ MAX_INSTRUCTIONS →
      run_loop (fuel + 1) state instruction
          (CH_MINUS ::
            (decimal a ++ CH_QUESTION :: (List.replicate (zeros + 1) CH_ZERO ++ rest)))
        = some (Result.exit (Failure.jumpZero ((state.loaded + 1) % USHORT_SIZE) 0))) := by
  refine ⟨read_next_zero_jump current instruction used a zeros rest ha hrest, rfl, ?_, ?_⟩
  · intro target htarget
    refine ⟨?_, rfl, ?_⟩
    · simp only [validate_jump, htarget, if_true]
    · intro h
      cases h
  · intro fuel state hbehind hfit
    have h1 : state.current > state.loaded := hbehind
    have h2 : ¬ state.current > MAX_INSTRUCTIONS := Nat.not_lt.mpr hfit
    rw [run_loop_succ]
    simp only [h1, h2, if_true, if_false,
      read_next_zero_jump _ instruction state.used a zeros rest ha hrest]

theorem zero_jump_target_rejected_witness :
    read_next 1 { command := Command.INC, address := 0, jump := 0 } 0
        (CH_MINUS :: (decimal 7 ++ CH_QUESTION :: (List.replicate (0 + 1) CH_ZERO
          ++ text "\n\n")))
      = Result.exit (Failure.jumpZero 1 0) ∧
    (Failure.jumpZero 1 0).exitCode = 104 ∧
    (∀ target, target > MAX_INSTRUCTIONS →
      validate_jump 1 target = some (Failure.jumpTooLarge 1 target) ∧
      (Failure.jumpTooLarge 1 target).exitCode = 103 ∧
      Failure.jumpTooLarge 1 target ≠ Failure.jumpZero 1 0) ∧
    (∀ (fuel : Nat) (state : State),
      state.loaded < state.current → state.current ≤ MAX_INSTRUCTIONS →
      run_loop (fuel + 1) state { command := Command.INC, address := 0, jump := 0 }
          (CH_MINUS ::
            (decimal 7 ++ CH_QUESTION :: (List.replicate (0 + 1) CH_ZERO ++ text "\n\n")))
        = some (Result.exit (Failure.jumpZero ((state.loaded + 1) % USHORT_SIZE) 0))) :=
  zero_jump_target_rejected 1 { command := Command.INC, address := 0, jump := 0 } 0 7 0
    (text "\n\n") (by decide) (by decide)

/-! ## Address literals and exit codes -/

theorem read_next_plus_decimal (current : Nat) (instruction : Instruction) (used n : Nat)
    (tail : Stream) :
    read_next current instruction used (CH_PLUS :: (decimal n ++ CH_NEWLINE :: tail))
      = if n % UINT_SIZE < MAX_MEMORY then
          Result.ok (false,
            { instruction with command := Command.INC, address := n % UINT_SIZE },
            (if n % UINT_SIZE > used then n % UINT_SIZE else used), CH_NEWLINE :: tail)
        else Result.exit (Failure.addressOutOfRange current (n % UINT_SIZE)) := by
  have hrest : ∀ c ∈ (CH_NEWLINE :: tail).head?, ¬ (CH_ZERO ≤ c ∧ c ≤ CH_NINE) := by
    intro c hc
    simp only [List.head?_cons, Option.mem_def, Option.some.injEq] at hc
    subst hc
    decide
  have hnum := read_number_decimal n (CH_NEWLINE :: tail) hrest
  by_cases hsmall : n % UINT_SIZE < MAX_MEMORY
  · have hvalid : validate_address current (n % UINT_SIZE) = none := by
      simp only [validate_address, ge_iff_le, Nat.not_le.mpr hsmall, if_false]
    have hshort : n % UINT_SIZE % USHORT_SIZE = n % UINT_SIZE := by
      simp only [MAX_MEMORY, USHORT_SIZE] at *
      omega
    simp only [read_next, if_true, read_address, hnum, hvalid, hshort, hsmall]
  · have hvalid : validate_address current (n % UINT_SIZE)
        = some (Failure.addressOutOfRange current (n % UINT_SIZE)) := by
      simp only [validate_address, ge_iff_le, Nat.not_lt.mp hsmall, if_true]
    simp only [read_next, if_true, read_address, hnum, hvalid, hsmall, if_false]

/-- C11 (the code at the failing input): the address literal 4294967296 is read
modulo 2^32 as address 0 and accepted, and `main` on "+4294967296\n\n" reports
counter 0 at 1 instead of exiting with code 101; in general the literal of `n`
is accepted exactly when `n % 2^32` is below `MAX_MEMORY`. -/
theorem address_literal_wraps :
    read_next 1 { command := Command.INC, address := 0, jump := 0 } 0
        (text "+4294967296\n\n")
      = Result.ok (false, { command := Command.INC, address := 0, jump := 0 }, 0,
          text "\n\n") ∧
    main 3 { command := Command.INC, address := 0, jump := 0 } (text "+4294967296\n\n")
      = some (Result.ok
          { total_instructions := 1, executed := 1, counters_used := 1,
            lines := some [(0, 1)] }) ∧
    ¬ (4294967296 < MAX_MEMORY) ∧
    ∀ (current : Nat) (instruction : Instruction) (used n : Nat) (tail : Stream),
      read_next current instruction used (CH_PLUS :: (decimal n ++ CH_NEWLINE :: tail))
        = if n % UINT_SIZE < MAX_MEMORY then
            Result.ok (false,
              { instruction with command := Command.INC, address := n % UINT_SIZE },
              (if n % UINT_SIZE > used then n % UINT_SIZE else used), CH_NEWLINE :: tail)
          else Result.exit (Failure.addressOutOfRange current (n % UINT_SIZE)) := by
  refine ⟨by rfl, by rfl, by decide, ?_⟩
  intro current instruction used n tail
  exact read_next_plus_decimal current instruction used n tail

/-- C12 (the code at the failing inputs): exit code 104 comes from two failure
classes, the malformed address of "+x" (a syntax failure in `read_address`) and
the zero jump target of "-0?0" (a range failure in `validate_jump`). -/
theorem exit_code_104_shared :
    read_next 1 { command := Command.INC, address := 0, jump := 0 } 0 (text "+x")
      = Result.exit (Failure.addressParse 1) ∧
    read_next 1 { command := Command.INC, address := 0, jump := 0 } 0 (text "-0?0")
      = Result.exit (Failure.jumpZero 1 0) ∧
    (Failure.addressParse 1).exitCode = 104 ∧
    (Failure.jumpZero 1 0).exitCode = 104 ∧
    Failure.addressParse 1 ≠ Failure.jumpZero 1 0 := by
  refine ⟨by rfl, by rfl, rfl, rfl, ?_⟩
  intro h
  cases h

/-! ## Well formed instructions -/

theorem read_next_skip (current : Nat) (instruction : Instruction) (used : Nat)
    (ws s : Stream) (hws : skippable ws = true) (hs : s.head? ≠ some CH_NEWLINE) :
    read_next current instruction used (ws ++ s) = read_next current instruction used s := by
  induction ws with
  | nil => rfl
  | cons c rest ih =>
    simp only [skippable, Bool.and_eq_true, Bool.or_eq_true, beq_iff_eq, bne_iff_ne, ne_eq]
      at hws
    obtain ⟨hc, hrest⟩ := hws
    have d2 : ¬ CH_NEWLINE = CH_PLUS := by decide
    have d3 : ¬ CH_NEWLINE = CH_MINUS := by decide
    have d4 : ¬ CH_SPACE = CH_PLUS := by decide
    have d5 : ¬ CH_SPACE = CH_MINUS := by decide
    have d6 : ¬ CH_SPACE = CH_NEWLINE := by decide
    rcases hc with hsp | ⟨hnl, hnext⟩
    · subst hsp
      simp only [List.cons_append, List.append_eq, read_next, d4, d5, d6, if_false, if_true]
      exact ih hrest
    · subst hnl
      have hhead : ¬ ((rest ++ s).head? = some CH_NEWLINE) := by
        cases rest with
        | nil => simpa using hs
        | cons d rest2 => simpa using hnext
      simp only [List.cons_append, List.append_eq, read_next, d2, d3, if_false, if_true, hhead]
      exact ih hrest

theorem read_jump_decimal (current j : Nat) (rest : Stream)
    (hj1 : 1 ≤ j) (hj2 : j ≤ MAX_INSTRUCTIONS)
    (hrest : ∀ c ∈ rest.head?, ¬ (CH_ZERO ≤ c ∧ c ≤ CH_NINE)) :
    read_jump current (CH_QUESTION :: (decimal j ++ rest)) = Result.ok (j, rest) := by
  have hq : ¬ CH_QUESTION ≠ CH_QUESTION := by simp
  have hsmall : j % UINT_SIZE = j := by
    simp only [MAX_INSTRUCTIONS, UINT_SIZE] at *
    omega
  have hshort : j % USHORT_SIZE = j := by
    simp only [MAX_INSTRUCTIONS, USHORT_SIZE] at *
    omega
  have h1 : ¬ j > MAX_INSTRUCTIONS := by omega
  have h2 : ¬ j = 0 := by omega
  have hvalid : validate_jump current j = none := by
    simp only [validate_jump, h1, h2, if_false]
  simp only [read_jump, hq, if_false, read_number_decimal j rest hrest, hsmall, hvalid, hshort]

theorem question_not_digit (rest : Stream) :
    ∀ c ∈ (CH_QUESTION :: rest).head?, ¬ (CH_ZERO ≤ c ∧ c ≤ CH_NINE) := by
  intro c hc
  simp only [List.head?_cons, Option.mem_def, Option.some.injEq] at hc
  subst hc
  decide

/-- C14: for every address `a` below `MAX_MEMORY`, every jump target `j` from 1
to `MAX_INSTRUCTIONS` and every rest `r` of the input that does not start with
a digit, `read_next` on "+" followed by the decimal literal of `a` returns, not
finished, the Increment of `a` and leaves the stream at `r`, and on "-a?j" it
returns, not finished, the JumpIfZeroElseDecrement of `a` and `j` and leaves the
stream at `r`; `used` becomes the maximum of its old value and `a`; a run `ws`
of spaces and single newlines in front of the instruction changes nothing. -/
theorem read_next_well_formed (current : Nat) (instruction : Instruction) (used a j : Nat)
    (ws r : Stream) (ha : a < MAX_MEMORY) (hj1 : 1 ≤ j) (hj2 : j ≤ MAX_INSTRUCTIONS)
    (hr : ∀ c ∈ r.head?, ¬ (CH_ZERO ≤ c ∧ c ≤ CH_NINE)) (hws : skippable ws = true) :
    read_next current instruction used (ws ++ CH_PLUS :: (decimal a ++ r))
      = Result.ok (false, { instruction with command := Command.INC, address := a },
          max used a, r) ∧
    read_next current instruction used
        (ws ++ CH_MINUS :: (decimal a ++ CH_QUESTION :: (decimal j ++ r)))
      = Result.ok (false, { command := Command.JZDEC, address := a, jump := j },
          max used a, r) := by
  have hmax : (if a > used then a else used) = max used a := by
    by_cases h : a > used
    · rw [if_pos h, max_eq_right (Nat.le_of_lt h)]
    · rw [if_neg h, max_eq_left (Nat.not_lt.mp h)]
  have hplus : ¬ CH_MINUS = CH_PLUS := by decide
  have hp : ∀ tail : Stream, (CH_PLUS :: tail).head? ≠ some CH_NEWLINE := by
    intro tail h
    simp only [List.head?_cons, Option.some.injEq] at h
    exact absurd h (by decide)
  have hm : ∀ tail : Stream, (CH_MINUS :: tail).head? ≠ some CH_NEWLINE := by
    intro tail h
    simp only [List.head?_cons, Option.some.injEq] at h
    exact absurd h (by decide)
  constructor
  · rw [read_next_skip current instruction used ws _ hws (hp _)]
    simp only [read_next, if_true, read_address_decimal current a r ha hr, hmax]
  · rw [read_next_skip current instruction used ws _ hws (hm _)]
    simp only [read_next, hplus, if_false, if_true,
      read_address_decimal current a _ ha (question_not_digit _),
      read_jump_decimal current j r hj1 hj2 hr, hmax]

theorem read_next_well_formed_witness :
    read_next 1 { command := Command.INC, address := 0, jump := 0 } 0
        (text " \n " ++ CH_PLUS :: (decimal 12 ++ text "\n\n"))
      = Result.ok (false,
          { ({ command := Command.INC, address := 0, jump := 0 } : Instruction) with
            command := Command.INC, address := 12 },
          max 0 12, text "\n\n") ∧
    read_next 1 { command := Command.INC, address := 0, jump := 0 } 0
        (text " \n " ++ CH_MINUS :: (decimal 12 ++ CH_QUESTION :: (decimal 3 ++ text "\n\n")))
      = Result.ok (false, { command := Command.JZDEC, address := 12, jump := 3 },
          max 0 12, text "\n\n") :=
  read_next_well_formed 1 { command := Command.INC, address := 0, jump := 0 } 0 12 3
    (text " \n ") (text "\n\n") (by decide) (by decide) (by decide) (by decide) (by decide)

/-! ## Trips and runs -/

theorem run_loop_trip (fuel : Nat) (config : Config) :
    run_loop (fuel + 1) config.state config.instruction config.input =
      match loop_trip config with
      | Trip.next config2 => run_loop fuel config2.state config2.instruction config2.input
      | Trip.stop result => some result := by
  rw [run_loop_succ]
  unfold loop_trip
  by_cases h1 : config.state.current > config.state.loaded
  · by_cases h2 : config.state.current > MAX_INSTRUCTIONS
    · simp only [h1, h2, if_true]
    · simp only [h1, h2, if_true, if_false]
      cases hr : read_next ((config.state.loaded + 1) % USHORT_SIZE) config.instruction
          config.state.used config.input with
      | ok value =>
        obtain ⟨finish, instruction2, used2, rest⟩ := value
        cases finish
        · simp only [Bool.false_eq_true, if_false]
        · simp only [if_true]
      | exit failure => rfl
      | undefined => rfl
  · simp only [h1, if_false]
    cases hs : execute config.state with
    | ok next => rfl
    | exit failure => rfl
    | undefined => rfl

theorem run_loop_after_trips (n : Nat) :
    ∀ (fuel : Nat) (config config2 : Config), after_trips n config = some config2 →
      run_loop (n + fuel) config.state config.instruction config.input
        = run_loop fuel config2.state config2.instruction config2.input := by
  induction n with
  | zero =>
    intro fuel config config2 h
    simp only [after_trips, Option.some.injEq] at h
    subst h
    rw [Nat.zero_add]
  | succ n ih =>
    intro fuel config config2 h
    have e : n + 1 + fuel = (n + fuel) + 1 := by omega
    rw [e, run_loop_trip]
    simp only [after_trips] at h
    cases ht : loop_trip config with
    | next config3 =>
      rw [ht] at h
      simp only at h ⊢
      exact ih fuel config3 config2 h
    | stop result =>
      rw [ht] at h
      cases h
/-! ## What the reader returns -/

theorem read_number_loop_length (input : Stream) :
    ∀ n : Nat, (read_number_loop n input).2.length ≤ input.length := by
  induction input with
  | nil =>
    intro n
    simp only [read_number_loop, List.length_nil, le_refl]
  | cons c rest ih =>
    intro n
    by_cases hd : CH_ZERO ≤ c ∧ c ≤ CH_NINE
    · simp only [read_number_loop, hd, and_self, if_true, List.length_cons]
      exact Nat.le_succ_of_le (ih _)
    · simp only [read_number_loop, hd, if_false, List.length_cons, le_refl]

theorem read_number_some (input rest : Stream) (m : Nat)
    (h : read_number input = (some m, rest)) : rest.length < input.length := by
  cases input with
  | nil =>
    simp only [read_number, Prod.mk.injEq] at h
    cases h.1
  | cons c tail =>
    by_cases hd : c < CH_ZERO ∨ CH_NINE < c
    · simp only [read_number, hd, if_true, Prod.mk.injEq] at h
      cases h.1
    · have hdigit : CH_ZERO ≤ c ∧ c ≤ CH_NINE := by omega
      simp only [read_number, hd, if_false, Prod.mk.injEq, read_number_loop, hdigit, and_self,
        if_true] at h
      rw [← h.2, List.length_cons]
      exact Nat.lt_succ_of_le (read_number_loop_length tail _)

theorem read_address_ok (current : Nat) (input rest : Stream) (address : Nat)
    (h : read_address current input = Result.ok (address, rest)) :
    address < MAX_MEMORY ∧ rest.length < input.length := by
  unfold read_address at h
  cases hn : read_number input with
  | mk parsed tail =>
    rw [hn] at h
    cases parsed with
    | none => cases h
    | some m =>
      simp only at h
      by_cases hv : m ≥ MAX_MEMORY
      · simp only [validate_address, hv, if_true] at h
        cases h
      · simp only [validate_address, hv, if_false, Result.ok.injEq, Prod.mk.injEq] at h
        obtain ⟨ha, hr⟩ := h
        subst hr
        refine ⟨?_, read_number_some input tail m hn⟩
        rw [← ha]
        simp only [MAX_MEMORY, USHORT_SIZE] at *
        omega

theorem read_address_defined (current : Nat) (input : Stream) :
    read_address current input ≠ Result.undefined := by
  unfold read_address
  cases read_number input with
  | mk parsed tail =>
    cases parsed with
    | none => simp
    | some m =>
      simp only
      cases validate_address current m <;> simp

theorem read_jump_ok (current : Nat) (input rest : Stream) (jump : Nat)
    (h : read_jump current input = Result.ok (jump, rest)) :
    1 ≤ jump ∧ jump ≤ MAX_INSTRUCTIONS ∧ rest.length < input.length := by
  cases input with
  | nil =>
    simp only [read_jump] at h
    cases h
  | cons c tail =>
    by_cases hq : c ≠ CH_QUESTION
    · simp only [read_jump, hq, ne_eq, not_false_eq_true, if_true] at h
      cases h
    · simp only [read_jump, hq, if_false] at h
      cases hn : read_number tail with
      | mk parsed tail2 =>
        rw [hn] at h
        cases parsed with
        | none => cases h
        | some m =>
          simp only at h
          by_cases h1 : m > MAX_INSTRUCTIONS
          · simp only [validate_jump, h1, if_true] at h
            cases h
          · by_cases h2 : m = 0
            · simp only [validate_jump, h1, h2, if_true, if_false] at h
              cases h
            · simp only [validate_jump, h1, h2, if_false, Result.ok.injEq, Prod.mk.injEq] at h
              obtain ⟨hj, hr⟩ := h
              subst hr
              have hlen := read_number_some tail _ m hn
              have hshort : m % USHORT_SIZE = m := by
                simp only [MAX_INSTRUCTIONS, USHORT_SIZE] at *
                omega
              rw [hshort] at hj
              subst hj
              refine ⟨by omega, by omega, ?_⟩
              rw [List.length_cons]
              omega

theorem read_jump_defined (current : Nat) (input : Stream) :
    read_jump current input ≠ Result.undefined := by
  cases input with
  | nil => simp [read_jump]
  | cons c tail =>
    by_cases hq : c ≠ CH_QUESTION
    · simp [read_jump, hq]
    · simp only [read_jump, hq, if_false]
      cases read_number tail with
      | mk parsed tail2 =>
        cases parsed with
        | none => simp
        | some m =>
          simp only
          cases validate_jump current m <;> simp
theorem read_next_cases (current : Nat) (instruction : Instruction) (used : Nat)
    (input : Stream) :
    (∃ failure, read_next current instruction used input = Result.exit failure) ∨
    (∃ rest, read_next current instruction used input
      = Result.ok (true, instruction, used, rest)) ∨
    (∃ (instruction2 : Instruction) (rest : Stream),
      read_next current instruction used input
        = Result.ok (false, instruction2, max used instruction2.address, rest) ∧
      instruction2.address < MAX_MEMORY ∧
      (instruction2.command = Command.JZDEC →
        1 ≤ instruction2.jump ∧ instruction2.jump ≤ MAX_INSTRUCTIONS) ∧
      rest.length < input.length) := by
  have hmax : ∀ a : Nat, (if a > used then a else used) = max used a := by
    intro a
    by_cases h : a > used
    · rw [if_pos h, max_eq_right (Nat.le_of_lt h)]
    · rw [if_neg h, max_eq_left (Nat.not_lt.mp h)]
  induction input with
  | nil =>
    right; left
    exact ⟨[], rfl⟩
  | cons c tail ih =>
    have hgrow : ∀ rest : Stream, rest.length < tail.length →
        rest.length < (c :: tail).length := by
      intro rest h
      rw [List.length_cons]
      omega
    by_cases hplus : c = CH_PLUS
    · subst hplus
      cases ha : read_address current tail with
      | ok value =>
        obtain ⟨address, rest2⟩ := value
        obtain ⟨hmem, hlen⟩ := read_address_ok current tail rest2 address ha
        right; right
        refine ⟨{ instruction with command := Command.INC, address := address }, rest2, ?_,
          hmem, ?_, hgrow _ hlen⟩
        · simp only [read_next, if_true, ha, hmax]
        · intro hc
          cases hc
      | exit failure =>
        left
        exact ⟨failure, by simp only [read_next, if_true, ha]⟩
      | undefined => exact absurd ha (read_address_defined current tail)
    · by_cases hminus : c = CH_MINUS
      · subst hminus
        cases ha : read_address current tail with
        | ok value =>
          obtain ⟨address, rest2⟩ := value
          obtain ⟨hmem, hlen⟩ := read_address_ok current tail rest2 address ha
          cases hj : read_jump current rest2 with
          | ok value2 =>
            obtain ⟨jump, rest3⟩ := value2
            obtain ⟨hj1, hj2, hlen2⟩ := read_jump_ok current rest2 rest3 jump hj
            right; right
            refine ⟨{ command := Command.JZDEC, address := address, jump := jump }, rest3, ?_,
              hmem, fun _ => ⟨hj1, hj2⟩, hgrow _ (by omega)⟩
            simp only [read_next, hplus, if_false, if_true, ha, hj, hmax]
          | exit failure =>
            left
            exact ⟨failure, by simp only [read_next, hplus, if_false, if_true, ha, hj]⟩
          | undefined => exact absurd hj (read_jump_defined current rest2)
        | exit failure =>
          left
          exact ⟨failure, by simp only [read_next, hplus, if_false, if_true, ha]⟩
        | undefined => exact absurd ha (read_address_defined current tail)
      · by_cases hnl : c = CH_NEWLINE
        · subst hnl
          by_cases hh : tail.head? = some CH_NEWLINE
          · right; left
            exact ⟨tail.tail, by simp only [read_next, hplus, hminus, if_false, if_true, hh]⟩
          · have hsame : read_next current instruction used (CH_NEWLINE :: tail)
                = read_next current instruction used tail := by
              simp only [read_next, hplus, hminus, if_false, if_true, hh]
            rw [hsame]
            rcases ih with ⟨failure, hf⟩ | ⟨rest, hr⟩ | ⟨i2, rest, hr, h1, h2, h3⟩
            · exact Or.inl ⟨failure, hf⟩
            · exact Or.inr (Or.inl ⟨rest, hr⟩)
            · exact Or.inr (Or.inr ⟨i2, rest, hr, h1, h2, hgrow _ h3⟩)
        · by_cases hsp : c = CH_SPACE
          · subst hsp
            have hsame : read_next current instruction used (CH_SPACE :: tail)
                = read_next current instruction used tail := by
              simp only [read_next, hplus, hminus, hnl, if_false, if_true]
            rw [hsame]
            rcases ih with ⟨failure, hf⟩ | ⟨rest, hr⟩ | ⟨i2, rest, hr, h1, h2, h3⟩
            · exact Or.inl ⟨failure, hf⟩
            · exact Or.inr (Or.inl ⟨rest, hr⟩)
            · exact Or.inr (Or.inr ⟨i2, rest, hr, h1, h2, hgrow _ h3⟩)
          · left
            exact ⟨Failure.unexpectedCharacter current c,
              by simp only [read_next, hplus, hminus, hnl, hsp, if_false]⟩

theorem read_next_defined (current : Nat) (instruction : Instruction) (used : Nat)
    (input : Stream) : read_next current instruction used input ≠ Result.undefined := by
  intro h
  rcases read_next_cases current instruction used input with
    ⟨failure, hf⟩ | ⟨rest, hr⟩ | ⟨i2, rest, hr, _⟩
  · rw [hf] at h
    cases h
  · rw [hr] at h
    cases h
  · rw [hr] at h
    cases h

theorem read_next_read (current : Nat) (instruction : Instruction) (used : Nat)
    (input : Stream) (instruction2 : Instruction) (used2 : Nat) (rest : Stream)
    (h : read_next current instruction used input
      = Result.ok (false, instruction2, used2, rest)) :
    instruction2.address < MAX_MEMORY ∧
    (instruction2.command = Command.JZDEC →
      1 ≤ instruction2.jump ∧ instruction2.jump ≤ MAX_INSTRUCTIONS) ∧
    used2 = max used instruction2.address ∧
    rest.length < input.length := by
  rcases read_next_cases current instruction used input with
    ⟨failure, hf⟩ | ⟨rest1, hr⟩ | ⟨i2, rest1, hr, h1, h2, h3⟩
  · rw [hf] at h
    cases h
  · rw [hr] at h
    simp only [Result.ok.injEq, Prod.mk.injEq] at h
    exact absurd h.1 (by decide)
  · rw [hr] at h
    simp only [Result.ok.injEq, Prod.mk.injEq, true_and] at h
    obtain ⟨hi, hu, hrest⟩ := h
    subst hi hrest
    exact ⟨h1, h2, hu.symm, h3⟩

theorem read_next_finish (current : Nat) (instruction : Instruction) (used : Nat)
    (input : Stream) (instruction2 : Instruction) (used2 : Nat) (rest : Stream)
    (h : read_next current instruction used input
      = Result.ok (true, instruction2, used2, rest)) :
    instruction2 = instruction ∧ used2 = used := by
  rcases read_next_cases current instruction used input with
    ⟨failure, hf⟩ | ⟨rest1, hr⟩ | ⟨i2, rest1, hr, h1, h2, h3⟩
  · rw [hf] at h
    cases h
  · rw [hr] at h
    simp only [Result.ok.injEq, Prod.mk.injEq, true_and] at h
    exact ⟨h.1.symm, h.2.1.symm⟩
  · rw [hr] at h
    simp only [Result.ok.injEq, Prod.mk.injEq] at h
    exact absurd h.1 (by decide)
/-! ## What a step returns -/

theorem execute_ok_guards (state next : State) (h : execute state = Result.ok next) :
    1 ≤ state.current ∧ state.current ≤ MAX_INSTRUCTIONS ∧
      (state.instructions (state.current - 1)).address < MAX_MEMORY := by
  by_cases h1 : state.current = 0 ∨ state.current > MAX_INSTRUCTIONS
  · simp only [execute, h1, if_true] at h
    cases h
  · by_cases h2 : (state.instructions (state.current - 1)).address ≥ MAX_MEMORY
    · simp only [execute, h1, h2, if_true, if_false] at h
      cases h
    · omega

theorem execute_ok_of_switch (state stepped next : State)
    (hswitch : execute_switch state (state.instructions (state.current - 1))
      = Result.ok stepped)
    (h : execute state = Result.ok next) :
    next = { stepped with executed := (stepped.executed + 1) % UINT_SIZE } ∧
      (stepped.executed + 1) % UINT_SIZE ≤ MAX_EXECUTION := by
  obtain ⟨hpos, hcap, hmem⟩ := execute_ok_guards state next h
  rw [execute_eq_of_switch state stepped hpos hcap hmem hswitch] at h
  by_cases hover : (stepped.executed + 1) % UINT_SIZE > MAX_EXECUTION
  · rw [if_pos hover] at h
    cases h
  · rw [if_neg hover] at h
    injection h with h
    exact ⟨h.symm, Nat.not_lt.mp hover⟩

theorem execute_ok_forms (state next : State) (h : execute state = Result.ok next) :
    next.instructions = state.instructions ∧ next.loaded = state.loaded ∧
    next.used = state.used ∧
    next.executed = (state.executed + 1) % UINT_SIZE ∧
    next.executed ≤ MAX_EXECUTION ∧
    (((state.instructions (state.current - 1)).command = Command.INC ∧
        state.counters (state.instructions (state.current - 1)).address ≠ MAX_COUNTER_VALUE ∧
        next.counters = Function.update state.counters
          (state.instructions (state.current - 1)).address
          ((state.counters (state.instructions (state.current - 1)).address + 1)
            % USHORT_SIZE) ∧
        next.current = (state.current + 1) % USHORT_SIZE) ∨
      ((state.instructions (state.current - 1)).command = Command.JZDEC ∧
        0 < state.counters (state.instructions (state.current - 1)).address ∧
        next.counters = Function.update state.counters
          (state.instructions (state.current - 1)).address
          (state.counters (state.instructions (state.current - 1)).address - 1) ∧
        next.current = (state.current + 1) % USHORT_SIZE) ∨
      ((state.instructions (state.current - 1)).command = Command.JZDEC ∧
        state.counters (state.instructions (state.current - 1)).address = 0 ∧
        next.counters = state.counters ∧
        next.current = (state.instructions (state.current - 1)).jump)) := by
  cases hc : (state.instructions (state.current - 1)).command
  · by_cases hmax : state.counters (state.instructions (state.current - 1)).address
        = MAX_COUNTER_VALUE
    · obtain ⟨h1, h2, h3⟩ := execute_ok_guards state next h
      have hg1 : ¬ (state.current = 0 ∨ state.current > MAX_INSTRUCTIONS) := by omega
      have hg2 : ¬ ((state.instructions (state.current - 1)).address ≥ MAX_MEMORY) := by omega
      simp only [execute, hg1, hg2, if_false, execute_switch, hc, validate_inc, hmax,
        if_true] at h
      cases h
    · obtain ⟨hnext, hle⟩ := execute_ok_of_switch state _ next
        (execute_switch_inc state _ hc hmax) h
      subst hnext
      exact ⟨rfl, rfl, rfl, rfl, hle, Or.inl ⟨rfl, hmax, rfl, rfl⟩⟩
  · by_cases hzero : state.counters (state.instructions (state.current - 1)).address = 0
    · obtain ⟨hnext, hle⟩ := execute_ok_of_switch state _ next
        (execute_switch_jzdec_zero state _ hc hzero) h
      subst hnext
      exact ⟨rfl, rfl, rfl, rfl, hle, Or.inr (Or.inr ⟨rfl, hzero, rfl, rfl⟩)⟩
    · obtain ⟨hnext, hle⟩ := execute_ok_of_switch state _ next
        (execute_switch_jzdec_pos state _ hc (Nat.pos_of_ne_zero hzero)) h
      subst hnext
      exact ⟨rfl, rfl, rfl, rfl, hle,
        Or.inr (Or.inl ⟨rfl, Nat.pos_of_ne_zero hzero, rfl, rfl⟩)⟩

theorem execute_defined (state : State) (hpos : 1 ≤ state.current)
    (hcap : state.current ≤ MAX_INSTRUCTIONS)
    (hmem : (state.instructions (state.current - 1)).address < MAX_MEMORY) :
    execute state ≠ Result.undefined := by
  have hg1 : ¬ (state.current = 0 ∨ state.current > MAX_INSTRUCTIONS) := by omega
  have hg2 : ¬ ((state.instructions (state.current - 1)).address ≥ MAX_MEMORY) := by omega
  cases hc : (state.instructions (state.current - 1)).command
  · by_cases hmax : state.counters (state.instructions (state.current - 1)).address
        = MAX_COUNTER_VALUE
    · simp only [execute, hg1, hg2, if_false, execute_switch, hc, validate_inc, hmax, if_true,
        ne_eq, not_false_eq_true, reduceCtorEq]
    · rw [execute_eq_of_switch state _ hpos hcap hmem (execute_switch_inc state _ hc hmax)]
      split <;> simp
  · by_cases hzero : state.counters (state.instructions (state.current - 1)).address = 0
    · rw [execute_eq_of_switch state _ hpos hcap hmem
        (execute_switch_jzdec_zero state _ hc hzero)]
      split <;> simp
    · rw [execute_eq_of_switch state _ hpos hcap hmem
        (execute_switch_jzdec_pos state _ hc (Nat.pos_of_ne_zero hzero))]
      split <;> simp

/-! ## What a trip does -/

theorem loop_trip_cases (config : Config) :
    (config.state.current > config.state.loaded ∧
      config.state.current > MAX_INSTRUCTIONS ∧
      loop_trip config = Trip.stop (Result.exit Failure.tableFull)) ∨
    (config.state.current > config.state.loaded ∧
      config.state.current ≤ MAX_INSTRUCTIONS ∧
      ∃ failure,
        read_next ((config.state.loaded + 1) % USHORT_SIZE) config.instruction
          config.state.used config.input = Result.exit failure ∧
        loop_trip config = Trip.stop (Result.exit failure)) ∨
    (config.state.current > config.state.loaded ∧
      config.state.current ≤ MAX_INSTRUCTIONS ∧
      ∃ rest,
        read_next ((config.state.loaded + 1) % USHORT_SIZE) config.instruction
          config.state.used config.input
          = Result.ok (true, config.instruction, config.state.used, rest) ∧
        loop_trip config = Trip.stop (Result.ok
          (decide (config.state.current ≠ config.state.loaded + 1), config.state, rest))) ∨
    (config.state.current > config.state.loaded ∧
      config.state.current ≤ MAX_INSTRUCTIONS ∧
      ∃ (instruction2 : Instruction) (rest : Stream),
        read_next ((config.state.loaded + 1) % USHORT_SIZE) config.instruction
          config.state.used config.input
          = Result.ok (false, instruction2, max config.state.used instruction2.address, rest) ∧
        instruction2.address < MAX_MEMORY ∧
        (instruction2.command = Command.JZDEC →
          1 ≤ instruction2.jump ∧ instruction2.jump ≤ MAX_INSTRUCTIONS) ∧
        rest.length < config.input.length ∧
        loop_trip config = Trip.next
          { state :=
              { config.state with
                used := max config.state.used instruction2.address
                instructions :=
                  Function.update config.state.instructions config.state.loaded instruction2
                loaded := config.state.loaded + 1 }
            instruction := instruction2
            input := rest }) ∨
    (config.state.current ≤ config.state.loaded ∧
      ∃ next, execute config.state = Result.ok next ∧
        loop_trip config = Trip.next { config with state := next }) ∨
    (config.state.current ≤ config.state.loaded ∧
      ∃ failure, execute config.state = Result.exit failure ∧
        loop_trip config = Trip.stop (Result.exit failure)) ∨
    (config.state.current ≤ config.state.loaded ∧
      execute config.state = Result.undefined ∧
      loop_trip config = Trip.stop Result.undefined) := by
  by_cases h1 : config.state.current > config.state.loaded
  · by_cases h2 : config.state.current > MAX_INSTRUCTIONS
    · left
      exact ⟨h1, h2, by simp only [loop_trip, h1, h2, if_true]⟩
    · have hfit : config.state.current ≤ MAX_INSTRUCTIONS := Nat.not_lt.mp h2
      have hshort : (config.state.loaded + 1) % USHORT_SIZE = config.state.loaded + 1 := by
        simp only [MAX_INSTRUCTIONS, USHORT_SIZE] at *
        omega
      rcases read_next_cases ((config.state.loaded + 1) % USHORT_SIZE) config.instruction
          config.state.used config.input with
        ⟨failure, hf⟩ | ⟨rest, hr⟩ | ⟨i2, rest, hr, h3, h4, h5⟩
      · right; left
        exact ⟨h1, hfit, failure, hf, by simp only [loop_trip, h1, h2, if_true, if_false, hf]⟩
      · right; right; left
        exact ⟨h1, hfit, rest, hr, by simp only [loop_trip, h1, h2, if_true, if_false, hr]⟩
      · right; right; right; left
        refine ⟨h1, hfit, i2, rest, hr, h3, h4, h5, ?_⟩
        simp only [loop_trip, h1, h2, if_true, if_false, hr, Bool.false_eq_true]
        rw [hshort]
  · have hle : config.state.current ≤ config.state.loaded := Nat.not_lt.mp h1
    right; right; right; right
    cases hs : execute config.state with
    | ok next =>
      left
      exact ⟨hle, next, rfl, by simp only [loop_trip, h1, if_false, hs]⟩
    | exit failure =>
      right; left
      exact ⟨hle, failure, rfl, by simp only [loop_trip, h1, if_false, hs]⟩
    | undefined =>
      right; right
      exact ⟨hle, rfl, by simp only [loop_trip, h1, if_false, hs]⟩

theorem trip_keeps_invariant (config config2 : Config) (hinv : Invariant config.state)
    (ht : loop_trip config = Trip.next config2) : Invariant config2.state := by
  obtain ⟨hload, hcur, hcount, haddr, hjump, hexec⟩ := hinv
  rcases loop_trip_cases config with
    ⟨_, _, hk⟩ | ⟨_, _, _, _, hk⟩ | ⟨_, _, _, _, hk⟩ |
    ⟨hgt, hfit, i2, rest, hread, hmem, hj, hlen, hk⟩ |
    ⟨hle, next, hstep, hk⟩ | ⟨_, _, _, hk⟩ | ⟨_, _, hk⟩
  · rw [hk] at ht; cases ht
  · rw [hk] at ht; cases ht
  · rw [hk] at ht; cases ht
  · rw [hk] at ht
    injection ht with ht
    subst ht
    refine ⟨?_, hcur, hcount, ?_, ?_, hexec⟩
    · show config.state.loaded + 1 ≤ MAX_INSTRUCTIONS
      omega
    · intro i hi
      have hi2 : i < config.state.loaded + 1 := hi
      show (Function.update config.state.instructions config.state.loaded i2 i).address
        < MAX_MEMORY
      by_cases heq : i = config.state.loaded
      · rw [heq, Function.update_same]
        exact hmem
      · rw [Function.update_noteq heq]
        exact haddr i (by omega)
    · intro i hi
      have hi2 : i < config.state.loaded + 1 := hi
      show (Function.update config.state.instructions config.state.loaded i2 i).command
          = Command.JZDEC →
        1 ≤ (Function.update config.state.instructions config.state.loaded i2 i).jump ∧
        (Function.update config.state.instructions config.state.loaded i2 i).jump
          ≤ MAX_INSTRUCTIONS
      by_cases heq : i = config.state.loaded
      · rw [heq, Function.update_same]
        exact hj
      · rw [Function.update_noteq heq]
        exact hjump i (by omega)
  · rw [hk] at ht
    injection ht with ht
    subst ht
    obtain ⟨hi, hl, hu, he, hbound, hform⟩ := execute_ok_forms config.state next hstep
    have hfetch : config.state.current - 1 < config.state.loaded := by omega
    have hwrap : (config.state.current + 1) % USHORT_SIZE = config.state.current + 1 := by
      simp only [MAX_INSTRUCTIONS, USHORT_SIZE] at *
      omega
    refine ⟨?_, ?_, ?_, ?_, ?_, hbound⟩
    · show next.loaded ≤ MAX_INSTRUCTIONS
      rw [hl]
      exact hload
    · show 1 ≤ next.current
      rcases hform with ⟨_, _, _, hc⟩ | ⟨_, _, _, hc⟩ | ⟨hcmd, _, _, hc⟩
      · rw [hc, hwrap]; omega
      · rw [hc, hwrap]; omega
      · rw [hc]
        exact (hjump _ hfetch hcmd).1
    · intro a
      show next.counters a ≤ MAX_COUNTER_VALUE
      rcases hform with ⟨_, hne, hc, _⟩ | ⟨_, hpos, hc, _⟩ | ⟨_, _, hc, _⟩
      · rw [hc]
        by_cases heq : a = (config.state.instructions (config.state.current - 1)).address
        · rw [heq, Function.update_same]
          have hold := hcount (config.state.instructions (config.state.current - 1)).address
          simp only [MAX_COUNTER_VALUE, USHORT_SIZE] at *
          omega
        · rw [Function.update_noteq heq]
          exact hcount a
      · rw [hc]
        by_cases heq : a = (config.state.instructions (config.state.current - 1)).address
        · rw [heq, Function.update_same]
          have hold := hcount (config.state.instructions (config.state.current - 1)).address
          omega
        · rw [Function.update_noteq heq]
          exact hcount a
      · rw [hc]
        exact hcount a
    · intro i hlt
      show (next.instructions i).address < MAX_MEMORY
      rw [hi]
      exact haddr i (by rw [← hl]; exact hlt)
    · intro i hlt
      show (next.instructions i).command = Command.JZDEC →
        1 ≤ (next.instructions i).jump ∧ (next.instructions i).jump ≤ MAX_INSTRUCTIONS
      rw [hi]
      exact hjump i (by rw [← hl]; exact hlt)
  · rw [hk] at ht; cases ht
  · rw [hk] at ht; cases ht

theorem start_invariant (instruction : Instruction) (input : Stream) :
    Invariant (start instruction input).state := by
  refine ⟨?_, ?_, ?_, ?_, ?_, ?_⟩
  · show (0 : Nat) ≤ MAX_INSTRUCTIONS
    exact Nat.zero_le _
  · exact Nat.le_refl 1
  · intro a
    exact Nat.zero_le _
  · intro i hi
    exact absurd hi (Nat.not_lt_zero i)
  · intro i hi
    exact absurd hi (Nat.not_lt_zero i)
  · exact Nat.zero_le _

theorem after_trips_invariant (n : Nat) :
    ∀ (config config2 : Config), Invariant config.state →
      after_trips n config = some config2 → Invariant config2.state := by
  induction n with
  | zero =>
    intro config config2 hinv h
    simp only [after_trips, Option.some.injEq] at h
    subst h
    exact hinv
  | succ n ih =>
    intro config config2 hinv h
    simp only [after_trips] at h
    cases ht : loop_trip config with
    | next config3 =>
      rw [ht] at h
      exact ih config3 config2 (trip_keeps_invariant config config3 hinv ht) h
    | stop result =>
      rw [ht] at h
      cases h

/-! ## Runs and the trips they are made of -/

theorem run_loop_stops (fuel : Nat) :
    ∀ (config : Config) (result : Result (Bool × State × Stream)),
      run_loop fuel config.state config.instruction config.input = some result →
      ∃ (n : Nat) (config2 : Config), n < fuel ∧ after_trips n config = some config2 ∧
        loop_trip config2 = Trip.stop result := by
  induction fuel with
  | zero =>
    intro config result h
    simp only [run_loop] at h
    cases h
  | succ fuel ih =>
    intro config result h
    rw [run_loop_trip] at h
    cases ht : loop_trip config with
    | next config3 =>
      rw [ht] at h
      obtain ⟨n, config2, hn, hreach, hstop⟩ := ih config3 result h
      refine ⟨n + 1, config2, by omega, ?_, hstop⟩
      simp only [after_trips, ht]
      exact hreach
    | stop result2 =>
      rw [ht] at h
      simp only [Option.some.injEq] at h
      subst h
      exact ⟨0, config, Nat.succ_pos fuel, rfl, ht⟩

theorem run_loop_none (fuel : Nat) :
    ∀ (config : Config),
      run_loop fuel config.state config.instruction config.input = none →
      ∃ config2 : Config, after_trips fuel config = some config2 := by
  induction fuel with
  | zero =>
    intro config _
    exact ⟨config, rfl⟩
  | succ fuel ih =>
    intro config h
    rw [run_loop_trip] at h
    cases ht : loop_trip config with
    | next config3 =>
      rw [ht] at h
      obtain ⟨config2, hreach⟩ := ih config3 h
      refine ⟨config2, ?_⟩
      simp only [after_trips, ht]
      exact hreach
    | stop result2 =>
      rw [ht] at h
      cases h

theorem read_and_execute_start (fuel : Nat) (instruction : Instruction) (input : Stream) :
    read_and_execute fuel State.zero instruction input
      = run_loop fuel (start instruction input).state (start instruction input).instruction
          (start instruction input).input := rfl

theorem trip_return (config : Config) (warning : Bool) (final : State) (rest : Stream)
    (ht : loop_trip config = Trip.stop (Result.ok (warning, final, rest))) :
    final = config.state ∧
      warning = decide (config.state.current ≠ config.state.loaded + 1) ∧
      config.state.loaded < config.state.current ∧
      config.state.current ≤ MAX_INSTRUCTIONS := by
  rcases loop_trip_cases config with
    ⟨_, _, hk⟩ | ⟨_, _, _, _, hk⟩ | ⟨hgt, hfit, rest2, _, hk⟩ |
    ⟨_, _, _, _, _, _, _, _, hk⟩ | ⟨_, _, _, hk⟩ | ⟨_, _, _, hk⟩ | ⟨_, _, hk⟩
  · rw [hk] at ht; cases ht
  · rw [hk] at ht; cases ht
  · rw [hk] at ht
    injection ht with ht
    injection ht with ht
    simp only [Prod.mk.injEq] at ht
    exact ⟨ht.2.1.symm, ht.1.symm, hgt, hfit⟩
  · rw [hk] at ht; cases ht
  · rw [hk] at ht; cases ht
  · rw [hk] at ht; cases ht
  · rw [hk] at ht; cases ht

theorem trip_defined (config : Config) (hinv : Invariant config.state) :
    loop_trip config ≠ Trip.stop Result.undefined := by
  intro ht
  obtain ⟨hload, hcur, _, haddr, _, _⟩ := hinv
  rcases loop_trip_cases config with
    ⟨_, _, hk⟩ | ⟨_, _, _, _, hk⟩ | ⟨_, _, _, _, hk⟩ |
    ⟨_, _, _, _, _, _, _, _, hk⟩ | ⟨_, _, _, hk⟩ | ⟨_, _, _, hk⟩ | ⟨hle, hundef, hk⟩
  · rw [hk] at ht; cases ht
  · rw [hk] at ht; cases ht
  · rw [hk] at ht; cases ht
  · rw [hk] at ht; cases ht
  · rw [hk] at ht; cases ht
  · rw [hk] at ht; cases ht
  · exact execute_defined config.state hcur (le_trans hle hload)
      (haddr _ (by omega)) hundef

/-! ## The invariants of a run -/

theorem run_returns_reached (fuel : Nat) (instruction : Instruction) (input : Stream)
    (warning : Bool) (final : State) (rest : Stream)
    (hrun : read_and_execute fuel State.zero instruction input
      = some (Result.ok (warning, final, rest))) :
    ∃ (n : Nat) (config : Config),
      after_trips n (start instruction input) = some config ∧
      loop_trip config = Trip.stop (Result.ok (warning, final, rest)) ∧
      final = config.state := by
  rw [read_and_execute_start] at hrun
  obtain ⟨n, config, _, hreach, hstop⟩ := run_loop_stops fuel _ _ hrun
  exact ⟨n, config, hreach, hstop, (trip_return config warning final rest hstop).1⟩

/-- C13: in every state that a run of `read_and_execute` from the all-zero state
reaches at the head of its loops, whatever the input, and in the state it
returns, the invariants of the data model hold: `loaded` is at most
`MAX_INSTRUCTIONS`, `current` is at least 1, every counter is at most
`MAX_COUNTER_VALUE`, every loaded instruction has its address below
`MAX_MEMORY`, every loaded JumpIfZeroElseDecrement has its jump target from 1 to
`MAX_INSTRUCTIONS`, and `executed` is at most `MAX_EXECUTION`. -/
theorem data_model_invariant (instruction : Instruction) (input : Stream) (n : Nat)
    (config : Config) (hreach : after_trips n (start instruction input) = some config) :
    (config.state.loaded ≤ MAX_INSTRUCTIONS ∧
      1 ≤ config.state.current ∧
      (∀ a, config.state.counters a ≤ MAX_COUNTER_VALUE) ∧
      (∀ i, i < config.state.loaded → (config.state.instructions i).address < MAX_MEMORY) ∧
      (∀ i, i < config.state.loaded →
        (config.state.instructions i).command = Command.JZDEC →
        1 ≤ (config.state.instructions i).jump ∧
        (config.state.instructions i).jump ≤ MAX_INSTRUCTIONS) ∧
      config.state.executed ≤ MAX_EXECUTION) ∧
    (∀ fuel warning final rest,
      read_and_execute fuel State.zero instruction input
        = some (Result.ok (warning, final, rest)) → Invariant final) := by
  constructor
  · exact after_trips_invariant n _ config (start_invariant instruction input) hreach
  · intro fuel warning final rest hrun
    obtain ⟨m, config2, hreach2, _, hfinal⟩ :=
      run_returns_reached fuel instruction input warning final rest hrun
    rw [hfinal]
    exact after_trips_invariant m _ config2 (start_invariant instruction input) hreach2

theorem data_model_invariant_witness :
    (Config.executed_increment.state.loaded ≤ MAX_INSTRUCTIONS ∧
      1 ≤ Config.executed_increment.state.current ∧
      (∀ a, Config.executed_increment.state.counters a ≤ MAX_COUNTER_VALUE) ∧
      (∀ i, i < Config.executed_increment.state.loaded →
        (Config.executed_increment.state.instructions i).address < MAX_MEMORY) ∧
      (∀ i, i < Config.executed_increment.state.loaded →
        (Config.executed_increment.state.instructions i).command = Command.JZDEC →
        1 ≤ (Config.executed_increment.state.instructions i).jump ∧
        (Config.executed_increment.state.instructions i).jump ≤ MAX_INSTRUCTIONS) ∧
      Config.executed_increment.state.executed ≤ MAX_EXECUTION) ∧
    (∀ fuel warning final rest,
      read_and_execute fuel State.zero Instruction.zero (text "+0\n\n")
        = some (Result.ok (warning, final, rest)) → Invariant final) :=
  data_model_invariant Instruction.zero (text "+0\n\n") 2 Config.executed_increment rfl

/-- C16: whenever a run of `read_and_execute` from the all-zero state calls
`execute`, whatever the input, `1 <= current <= loaded <= MAX_INSTRUCTIONS`
holds, so the fetch at index `current - 1` is in the loaded part of the table,
the address of the fetched instruction is below `MAX_MEMORY`, and `execute` does
not leave the arrays; no run ends in an access outside an array. -/
theorem execute_precondition (instruction : Instruction) (input : Stream) (n : Nat)
    (config : Config) (hreach : after_trips n (start instruction input) = some config)
    (hcall : ¬ config.state.current > config.state.loaded) :
    1 ≤ config.state.current ∧
      config.state.current ≤ config.state.loaded ∧
      config.state.loaded ≤ MAX_INSTRUCTIONS ∧
      config.state.current - 1 < config.state.loaded ∧
      (config.state.instructions (config.state.current - 1)).address < MAX_MEMORY ∧
      execute config.state ≠ Result.undefined ∧
      (∀ fuel, read_and_execute fuel State.zero instruction input ≠ some Result.undefined) := by
  have hinv := after_trips_invariant n _ config (start_invariant instruction input) hreach
  obtain ⟨hload, hcur, _, haddr, _, _⟩ := hinv
  have hle : config.state.current ≤ config.state.loaded := Nat.not_lt.mp hcall
  have hfetch : config.state.current - 1 < config.state.loaded := by omega
  refine ⟨hcur, hle, hload, hfetch, haddr _ hfetch,
    execute_defined config.state hcur (le_trans hle hload) (haddr _ hfetch), ?_⟩
  intro fuel hrun
  rw [read_and_execute_start] at hrun
  obtain ⟨m, config2, _, hreach2, hstop⟩ := run_loop_stops fuel _ _ hrun
  exact trip_defined config2
    (after_trips_invariant m _ config2 (start_invariant instruction input) hreach2) hstop

theorem execute_precondition_witness :
    1 ≤ Config.loaded_increment.state.current ∧
      Config.loaded_increment.state.current ≤ Config.loaded_increment.state.loaded ∧
      Config.loaded_increment.state.loaded ≤ MAX_INSTRUCTIONS ∧
      Config.loaded_increment.state.current - 1 < Config.loaded_increment.state.loaded ∧
      (Config.loaded_increment.state.instructions
        (Config.loaded_increment.state.current - 1)).address < MAX_MEMORY ∧
      execute Config.loaded_increment.state ≠ Result.undefined ∧
      (∀ fuel, read_and_execute fuel State.zero Instruction.zero (text "+0\n\n")
        ≠ some Result.undefined) :=
  execute_precondition Instruction.zero (text "+0\n\n") 1 Config.loaded_increment rfl
    (by decide)

/-! ## The warning at the end of the program -/

/-- C15: when a run of `read_and_execute` from the all-zero state returns, the
warning was printed exactly when the final `current` differs from the final
`loaded + 1`, so a run that ends with the pointer at `loaded + 1` (as after a
jump just behind the program) returns without a warning; the state returned is
the state of the loops at the moment the reader signalled the end, `main`
prints the report of that state either way, and a trip on which the reader
signals the end returns with the state unchanged whether the warning is printed
or not. -/
theorem warning_boundary (fuel : Nat) (instruction : Instruction) (input : Stream)
    (warning : Bool) (final : State) (rest : Stream)
    (hrun : read_and_execute fuel State.zero instruction input
      = some (Result.ok (warning, final, rest))) :
    (warning = true ↔ final.current ≠ final.loaded + 1) ∧
    (final.current = final.loaded + 1 → warning = false) ∧
    (∃ (n : Nat) (config : Config),
      after_trips n (start instruction input) = some config ∧ final = config.state) ∧
    main fuel instruction input = some (print_resulting_state final) ∧
    (∀ (config : Config) (left : Stream),
      config.state.loaded < config.state.current →
      config.state.current ≤ MAX_INSTRUCTIONS →
      read_next ((config.state.loaded + 1) % USHORT_SIZE) config.instruction
          config.state.used config.input
        = Result.ok (true, config.instruction, config.state.used, left) →
      loop_trip config = Trip.stop (Result.ok
        (decide (config.state.current ≠ config.state.loaded + 1), config.state, left))) := by
  obtain ⟨n, config, hreach, hstop, hfinal⟩ :=
    run_returns_reached fuel instruction input warning final rest hrun
  obtain ⟨_, hwarn, _, _⟩ := trip_return config warning final rest hstop
  have hiff : warning = true ↔ final.current ≠ final.loaded + 1 := by
    rw [hwarn, hfinal]
    exact decide_eq_true_iff
  refine ⟨hiff, ?_, ⟨n, config, hreach, hfinal⟩, ?_, ?_⟩
  · intro hend
    cases warning with
    | false => rfl
    | true => exact absurd hend (hiff.mp rfl)
  · unfold main
    rw [hrun]
  · intro config2 left hgt hfit hread
    have h1 : config2.state.current > config2.state.loaded := hgt
    have h2 : ¬ config2.state.current > MAX_INSTRUCTIONS := Nat.not_lt.mpr hfit
    simp only [loop_trip, h1, h2, if_true, if_false, hread]

theorem warning_boundary_witness :
    (false = true ↔ State.jumped_behind.current ≠ State.jumped_behind.loaded + 1) ∧
    (State.jumped_behind.current = State.jumped_behind.loaded + 1 → false = false) ∧
    (∃ (n : Nat) (config : Config),
      after_trips n (start Instruction.zero (text "-0?2\n\n")) = some config ∧
      State.jumped_behind = config.state) ∧
    main 3 Instruction.zero (text "-0?2\n\n")
      = some (print_resulting_state State.jumped_behind) ∧
    (∀ (config : Config) (left : Stream),
      config.state.loaded < config.state.current →
      config.state.current ≤ MAX_INSTRUCTIONS →
      read_next ((config.state.loaded + 1) % USHORT_SIZE) config.instruction
          config.state.used config.input
        = Result.ok (true, config.instruction, config.state.used, left) →
      loop_trip config = Trip.stop (Result.ok
        (decide (config.state.current ≠ config.state.loaded + 1), config.state, left))) :=
  warning_boundary 3 Instruction.zero (text "-0?2\n\n") false State.jumped_behind [] rfl

/-! ## Loading -/

/-- C17 (counterexample): on "-0?3\n+0\n+0\n\n" instruction 1 jumps to
instruction number 3 with one instruction loaded; the third trip appends
instruction 2 and leaves the pointer beyond the loaded program, and the fourth
trip calls the reader again, with no step in between (`executed` stays 1). -/
theorem reader_called_twice_in_a_row :
    after_trips 2 (start Instruction.zero (text "-0?3\n+0\n+0\n\n"))
      = some Config.jumped_ahead ∧
    loop_trip Config.jumped_ahead = Trip.next Config.still_ahead ∧
    Config.still_ahead.state.loaded = Config.jumped_ahead.state.loaded + 1 ∧
    ¬ Config.still_ahead.state.current ≤ Config.still_ahead.state.loaded ∧
    (after_trips 4 (start Instruction.zero (text "-0?3\n+0\n+0\n\n"))).map
        (fun config => (config.state.current, config.state.loaded, config.state.executed))
      = some (3, 3, 1) := by
  refine ⟨rfl, rfl, rfl, by decide, rfl⟩

/-- C17 (amended): a trip that loads is a single fetch: it raises `loaded` by
exactly 1 and leaves `current`, `executed` and the counters as they were.
Right after the append the pointer is within the loaded range exactly when it
was `loaded + 1` before; when it was further ahead, as after a jump beyond
`loaded + 1`, it is still beyond the loaded program and the next trip calls the
reader again without a step in between. -/
theorem load_trip (config config2 : Config)
    (hload : config.state.current > config.state.loaded)
    (ht : loop_trip config = Trip.next config2) :
    config2.state.loaded = config.state.loaded + 1 ∧
    config2.state.current = config.state.current ∧
    config2.state.executed = config.state.executed ∧
    config2.state.counters = config.state.counters ∧
    (config2.state.current ≤ config2.state.loaded
      ↔ config.state.current = config.state.loaded + 1) ∧
    (config.state.current > config.state.loaded + 1 →
      config2.state.current > config2.state.loaded ∧
      config2.state.current ≤ MAX_INSTRUCTIONS) := by
  rcases loop_trip_cases config with
    ⟨_, _, hk⟩ | ⟨_, _, _, _, hk⟩ | ⟨_, _, _, _, hk⟩ |
    ⟨hgt, hfit, i2, rest, hread, hmem, hj, hlen, hk⟩ |
    ⟨hle, _, _, _⟩ | ⟨_, _, _, hk⟩ | ⟨_, _, hk⟩
  · rw [hk] at ht; cases ht
  · rw [hk] at ht; cases ht
  · rw [hk] at ht; cases ht
  · rw [hk] at ht
    injection ht with ht
    subst ht
    refine ⟨rfl, rfl, rfl, rfl, ?_, ?_⟩
    · show config.state.current ≤ config.state.loaded + 1
        ↔ config.state.current = config.state.loaded + 1
      omega
    · intro hahead
      constructor
      · show config.state.current > config.state.loaded + 1
        exact hahead
      · exact hfit
  · omega
  · rw [hk] at ht; cases ht
  · rw [hk] at ht; cases ht

theorem load_trip_witness :
    Config.still_ahead.state.loaded = Config.jumped_ahead.state.loaded + 1 ∧
    Config.still_ahead.state.current = Config.jumped_ahead.state.current ∧
    Config.still_ahead.state.executed = Config.jumped_ahead.state.executed ∧
    Config.still_ahead.state.counters = Config.jumped_ahead.state.counters ∧
    (Config.still_ahead.state.current ≤ Config.still_ahead.state.loaded
      ↔ Config.jumped_ahead.state.current = Config.jumped_ahead.state.loaded + 1) ∧
    (Config.jumped_ahead.state.current > Config.jumped_ahead.state.loaded + 1 →
      Config.still_ahead.state.current > Config.still_ahead.state.loaded ∧
      Config.still_ahead.state.current ≤ MAX_INSTRUCTIONS) :=
  load_trip Config.jumped_ahead Config.still_ahead (by decide) rfl

/-! ## The highest address used -/

theorem highest_loaded_address_update (instructions : Nat → Instruction) (k : Nat)
    (instruction : Instruction) (n : Nat) (hn : n ≤ k) :
    highest_loaded_address (Function.update instructions k instruction) n
      = highest_loaded_address instructions n := by
  induction n with
  | zero => rfl
  | succ n ih =>
    have hne : n ≠ k := by omega
    simp only [highest_loaded_address, Function.update_noteq hne]
    rw [ih (by omega)]

theorem highest_loaded_address_bound (instructions : Nat → Instruction) (n : Nat) :
    ∀ i, i < n → (instructions i).address ≤ highest_loaded_address instructions n := by
  induction n with
  | zero =>
    intro i hi
    exact absurd hi (Nat.not_lt_zero i)
  | succ n ih =>
    intro i hi
    simp only [highest_loaded_address]
    by_cases heq : i = n
    · rw [heq]
      exact le_max_right _ _
    · exact le_trans (ih i (by omega)) (le_max_left _ _)

theorem highest_loaded_address_attained (instructions : Nat → Instruction) (n : Nat)
    (hn : 0 < n) :
    ∃ i, i < n ∧ (instructions i).address = highest_loaded_address instructions n := by
  induction n with
  | zero => exact absurd hn (Nat.lt_irrefl 0)
  | succ n ih =>
    simp only [highest_loaded_address]
    by_cases hle : highest_loaded_address instructions n ≤ (instructions n).address
    · exact ⟨n, Nat.lt_succ_self n, (max_eq_right hle).symm⟩
    · have hlt : (instructions n).address < highest_loaded_address instructions n :=
        Nat.not_le.mp hle
      have hpos : 0 < n := by
        by_contra hzero
        have hz : n = 0 := by omega
        subst hz
        simp only [highest_loaded_address] at hlt
        omega
      obtain ⟨i, hi, heq⟩ := ih hpos
      exact ⟨i, by omega, by rw [heq, max_eq_left (Nat.le_of_lt hlt)]⟩

theorem trip_keeps_used (config config2 : Config)
    (hused : config.state.used
      = highest_loaded_address config.state.instructions config.state.loaded)
    (ht : loop_trip config = Trip.next config2) :
    config2.state.used
      = highest_loaded_address config2.state.instructions config2.state.loaded := by
  rcases loop_trip_cases config with
    ⟨_, _, hk⟩ | ⟨_, _, _, _, hk⟩ | ⟨_, _, _, _, hk⟩ |
    ⟨hgt, hfit, i2, rest, hread, hmem, hj, hlen, hk⟩ |
    ⟨hle, next, hstep, hk⟩ | ⟨_, _, _, hk⟩ | ⟨_, _, hk⟩
  · rw [hk] at ht; cases ht
  · rw [hk] at ht; cases ht
  · rw [hk] at ht; cases ht
  · rw [hk] at ht
    injection ht with ht
    subst ht
    show max config.state.used i2.address
      = highest_loaded_address
          (Function.update config.state.instructions config.state.loaded i2)
          (config.state.loaded + 1)
    simp only [highest_loaded_address, Function.update_same]
    rw [highest_loaded_address_update _ _ _ _ (Nat.le_refl _), hused]
  · rw [hk] at ht
    injection ht with ht
    subst ht
    obtain ⟨hi, hl, hu, _⟩ := execute_ok_forms config.state next hstep
    show next.used = highest_loaded_address next.instructions next.loaded
    rw [hu, hi, hl]
    exact hused
  · rw [hk] at ht; cases ht
  · rw [hk] at ht; cases ht

theorem after_trips_used (n : Nat) :
    ∀ (config config2 : Config),
      config.state.used
        = highest_loaded_address config.state.instructions config.state.loaded →
      after_trips n config = some config2 →
      config2.state.used
        = highest_loaded_address config2.state.instructions config2.state.loaded := by
  induction n with
  | zero =>
    intro config config2 hused h
    simp only [after_trips, Option.some.injEq] at h
    subst h
    exact hused
  | succ n ih =>
    intro config config2 hused h
    simp only [after_trips] at h
    cases ht : loop_trip config with
    | next config3 =>
      rw [ht] at h
      exact ih config3 config2 (trip_keeps_used config config3 hused ht) h
    | stop result =>
      rw [ht] at h
      cases h

/-- C18: in every state that a run of `read_and_execute` from the all-zero state
reaches at the head of its loops, and in the state it returns, `used` is the
maximum of the addresses of the loaded instructions: no loaded address is above
it, it is 0 when nothing is loaded and otherwise it is the address of a loaded
instruction.  `execute` does not change `used`, and a call of `read_next` that
reads an instruction sets it to the maximum of its old value and the address of
that instruction. -/
theorem highest_address_tracked (instruction : Instruction) (input : Stream) (n : Nat)
    (config : Config) (hreach : after_trips n (start instruction input) = some config) :
    config.state.used
        = highest_loaded_address config.state.instructions config.state.loaded ∧
    (∀ i, i < config.state.loaded →
      (config.state.instructions i).address ≤ config.state.used) ∧
    (config.state.loaded = 0 → config.state.used = 0) ∧
    (0 < config.state.loaded → ∃ i, i < config.state.loaded ∧
      (config.state.instructions i).address = config.state.used) ∧
    (∀ state next, execute state = Result.ok next → next.used = state.used) ∧
    (∀ current held used stream read used2 rest,
      read_next current held used stream = Result.ok (false, read, used2, rest) →
      used2 = max used read.address) ∧
    (∀ fuel warning final rest,
      read_and_execute fuel State.zero instruction input
        = some (Result.ok (warning, final, rest)) →
      final.used = highest_loaded_address final.instructions final.loaded) := by
  have hstart : (start instruction input).state.used
      = highest_loaded_address (start instruction input).state.instructions
          (start instruction input).state.loaded := rfl
  have hused := after_trips_used n _ config hstart hreach
  refine ⟨hused, ?_, ?_, ?_, ?_, ?_, ?_⟩
  · intro i hi
    rw [hused]
    exact highest_loaded_address_bound _ _ i hi
  · intro hzero
    rw [hused, hzero]
    rfl
  · intro hpos
    rw [hused]
    exact highest_loaded_address_attained _ _ hpos
  · intro state next hstep
    exact (execute_ok_forms state next hstep).2.2.1
  · intro current held used stream read used2 rest hread
    exact (read_next_read current held used stream read used2 rest hread).2.2.1
  · intro fuel warning final rest hrun
    obtain ⟨m, config2, hreach2, _, hfinal⟩ :=
      run_returns_reached fuel instruction input warning final rest hrun
    rw [hfinal]
    exact after_trips_used m _ config2 hstart hreach2

theorem highest_address_tracked_witness :
    Config.loaded_seven.state.used
        = highest_loaded_address Config.loaded_seven.state.instructions
            Config.loaded_seven.state.loaded ∧
    (∀ i, i < Config.loaded_seven.state.loaded →
      (Config.loaded_seven.state.instructions i).address ≤ Config.loaded_seven.state.used) ∧
    (Config.loaded_seven.state.loaded = 0 → Config.loaded_seven.state.used = 0) ∧
    (0 < Config.loaded_seven.state.loaded → ∃ i, i < Config.loaded_seven.state.loaded ∧
      (Config.loaded_seven.state.instructions i).address = Config.loaded_seven.state.used) ∧
    (∀ state next, execute state = Result.ok next → next.used = state.used) ∧
    (∀ current held used stream read used2 rest,
      read_next current held used stream = Result.ok (false, read, used2, rest) →
      used2 = max used read.address) ∧
    (∀ fuel warning final rest,
      read_and_execute fuel State.zero Instruction.zero (text "+7\n\n")
        = some (Result.ok (warning, final, rest)) →
      final.used = highest_loaded_address final.instructions final.loaded) :=
  highest_address_tracked Instruction.zero (text "+7\n\n") 1 Config.loaded_seven rfl

/-! ## Termination -/

theorem trip_measure (config config2 : Config) (hinv : Invariant config.state)
    (ht : loop_trip config = Trip.next config2) :
    (config.state.current ≤ config.state.loaded ∧
      execute config.state = Result.ok config2.state ∧
      config2.state.executed = config.state.executed + 1 ∧
      config2.state.loaded = config.state.loaded ∧
      config2.input = config.input) ∨
    (config.state.loaded < config.state.current ∧
      config.state.current ≤ MAX_INSTRUCTIONS ∧
      config2.state.current = config.state.current ∧
      config2.state.executed = config.state.executed ∧
      config2.state.loaded = config.state.loaded + 1 ∧
      config2.input.length < config.input.length) := by
  obtain ⟨_, _, _, _, _, hexec⟩ := hinv
  rcases loop_trip_cases config with
    ⟨_, _, hk⟩ | ⟨_, _, _, _, hk⟩ | ⟨_, _, _, _, hk⟩ |
    ⟨hgt, hfit, i2, rest, hread, hmem, hj, hlen, hk⟩ |
    ⟨hle, next, hstep, hk⟩ | ⟨_, _, _, hk⟩ | ⟨_, _, hk⟩
  · rw [hk] at ht; cases ht
  · rw [hk] at ht; cases ht
  · rw [hk] at ht; cases ht
  · rw [hk] at ht
    injection ht with ht
    subst ht
    exact Or.inr ⟨hgt, hfit, rfl, rfl, rfl, hlen⟩
  · rw [hk] at ht
    injection ht with ht
    subst ht
    obtain ⟨_, hl, _, he, _, _⟩ := execute_ok_forms config.state next hstep
    have hwrap : (config.state.executed + 1) % UINT_SIZE = config.state.executed + 1 := by
      simp only [MAX_EXECUTION, UINT_SIZE] at *
      omega
    rw [hwrap] at he
    exact Or.inl ⟨hle, hstep, he, hl, rfl⟩
  · rw [hk] at ht; cases ht
  · rw [hk] at ht; cases ht

theorem after_trips_count (n : Nat) :
    ∀ (config config2 : Config), Invariant config.state →
      after_trips n config = some config2 →
      config2.state.executed + config2.state.loaded
        = config.state.executed + config.state.loaded + n := by
  induction n with
  | zero =>
    intro config config2 _ h
    simp only [after_trips, Option.some.injEq] at h
    subst h
    rfl
  | succ n ih =>
    intro config config2 hinv h
    simp only [after_trips] at h
    cases ht : loop_trip config with
    | next config3 =>
      rw [ht] at h
      have hcount := ih config3 config2 (trip_keeps_invariant config config3 hinv ht) h
      rcases trip_measure config config3 hinv ht with
        ⟨_, _, he, hl, _⟩ | ⟨_, _, _, he, hl, _⟩
      · omega
      · omega
    | stop result =>
      rw [ht] at h
      cases h

theorem after_trips_last (n : Nat) :
    ∀ (config config2 : Config), after_trips (n + 1) config = some config2 →
      ∃ previous, after_trips n config = some previous ∧
        loop_trip previous = Trip.next config2 := by
  induction n with
  | zero =>
    intro config config2 h
    simp only [after_trips] at h
    cases ht : loop_trip config with
    | next config3 =>
      rw [ht] at h
      simp only [Option.some.injEq] at h
      subst h
      exact ⟨config, rfl, ht⟩
    | stop result =>
      rw [ht] at h
      cases h
  | succ n ih =>
    intro config config2 h
    rw [after_trips] at h
    cases ht : loop_trip config with
    | next config3 =>
      rw [ht] at h
      obtain ⟨previous, hprev, hlast⟩ := ih config3 config2 h
      refine ⟨previous, ?_, hlast⟩
      rw [after_trips, ht]
      exact hprev
    | stop result =>
      rw [ht] at h
      cases h

/-- C19: `read_and_execute` from the all-zero state terminates on every input:
with `MAX_EXECUTION + MAX_INSTRUCTIONS + 1` units of fuel or more the run ends,
in a return or in an exit and never outside an array.  After `n` trips through
the loops `n = executed + loaded` with `executed` at most `MAX_EXECUTION` and
`loaded` at most `MAX_INSTRUCTIONS`: each trip that goes on is either a step,
which raises `executed` by 1 and leaves the input, or a read, which raises
`loaded` by 1 and shortens the input; so there are at most `MAX_EXECUTION`
steps that succeed and one that fails, and at most `MAX_INSTRUCTIONS` reads of
an instruction. -/
theorem read_and_execute_terminates (instruction : Instruction) (input : Stream) :
    (∀ k, ∃ result,
      read_and_execute (MAX_EXECUTION + MAX_INSTRUCTIONS + 1 + k) State.zero instruction input
        = some result ∧ result ≠ Result.undefined) ∧
    (∀ n config, after_trips n (start instruction input) = some config →
      n = config.state.executed + config.state.loaded ∧
      config.state.executed ≤ MAX_EXECUTION ∧
      config.state.loaded ≤ MAX_INSTRUCTIONS) ∧
    (∀ n config config2, after_trips n (start instruction input) = some config →
      loop_trip config = Trip.next config2 →
      (config.state.current ≤ config.state.loaded ∧
        execute config.state = Result.ok config2.state ∧
        config2.state.executed = config.state.executed + 1 ∧
        config2.state.loaded = config.state.loaded ∧
        config2.input = config.input) ∨
      (config.state.loaded < config.state.current ∧
        config.state.current ≤ MAX_INSTRUCTIONS ∧
        config2.state.current = config.state.current ∧
        config2.state.executed = config.state.executed ∧
        config2.state.loaded = config.state.loaded + 1 ∧
        config2.input.length < config.input.length)) := by
  have hstart := start_invariant instruction input
  have hcount : ∀ n config, after_trips n (start instruction input) = some config →
      n = config.state.executed + config.state.loaded ∧
      config.state.executed ≤ MAX_EXECUTION ∧
      config.state.loaded ≤ MAX_INSTRUCTIONS := by
    intro n config hreach
    have hc := after_trips_count n _ config hstart hreach
    obtain ⟨hload, _, _, _, _, hexec⟩ := after_trips_invariant n _ config hstart hreach
    have h0 : (start instruction input).state.executed
        + (start instruction input).state.loaded = 0 := rfl
    exact ⟨by omega, hexec, hload⟩
  refine ⟨?_, hcount, ?_⟩
  · intro k
    cases hrun : read_and_execute (MAX_EXECUTION + MAX_INSTRUCTIONS + 1 + k) State.zero
        instruction input with
    | none =>
      rw [read_and_execute_start] at hrun
      obtain ⟨config2, hreach⟩ := run_loop_none _ _ hrun
      obtain ⟨hn, he, hl⟩ := hcount _ config2 hreach
      omega
    | some result =>
      refine ⟨result, rfl, ?_⟩
      intro hundef
      rw [hundef, read_and_execute_start] at hrun
      obtain ⟨m, config2, _, hreach2, hstop⟩ := run_loop_stops _ _ _ hrun
      exact trip_defined config2 (after_trips_invariant m _ config2 hstart hreach2) hstop
  · intro n config config2 hreach ht
    exact trip_measure config config2 (after_trips_invariant n _ config hstart hreach) ht

/-! ## The full instruction table -/

theorem trip_pointer (config config2 : Config) (hinv : Invariant config.state)
    (ht : loop_trip config = Trip.next config2) :
    config2.state.current ≤ MAX_INSTRUCTIONS + 1 ∧
      (config2.state.current = MAX_INSTRUCTIONS + 1 →
        config.state.current = MAX_INSTRUCTIONS ∧
        config.state.loaded = MAX_INSTRUCTIONS ∧
        config2.state.current = config.state.current + 1 ∧
        execute config.state = Result.ok config2.state) := by
  obtain ⟨hload, hcur, _, _, hjump, _⟩ := hinv
  rcases loop_trip_cases config with
    ⟨_, _, hk⟩ | ⟨_, _, _, _, hk⟩ | ⟨_, _, _, _, hk⟩ |
    ⟨hgt, hfit, i2, rest, hread, hmem, hj, hlen, hk⟩ |
    ⟨hle, next, hstep, hk⟩ | ⟨_, _, _, hk⟩ | ⟨_, _, hk⟩
  · rw [hk] at ht; cases ht
  · rw [hk] at ht; cases ht
  · rw [hk] at ht; cases ht
  · rw [hk] at ht
    injection ht with ht
    subst ht
    constructor
    · show config.state.current ≤ MAX_INSTRUCTIONS + 1
      omega
    · intro hfull
      have hfull2 : config.state.current = MAX_INSTRUCTIONS + 1 := hfull
      omega
  · rw [hk] at ht
    injection ht with ht
    subst ht
    obtain ⟨_, _, _, _, _, hform⟩ := execute_ok_forms config.state next hstep
    have hfetch : config.state.current - 1 < config.state.loaded := by omega
    have hwrap : (config.state.current + 1) % USHORT_SIZE = config.state.current + 1 := by
      simp only [MAX_INSTRUCTIONS, USHORT_SIZE] at *
      omega
    show next.current ≤ MAX_INSTRUCTIONS + 1 ∧
      (next.current = MAX_INSTRUCTIONS + 1 →
        config.state.current = MAX_INSTRUCTIONS ∧
        config.state.loaded = MAX_INSTRUCTIONS ∧
        next.current = config.state.current + 1 ∧
        execute config.state = Result.ok next)
    rcases hform with ⟨_, _, _, hc⟩ | ⟨_, _, _, hc⟩ | ⟨hcmd, _, _, hc⟩
    · rw [hc, hwrap]
      exact ⟨by omega, fun h => ⟨by omega, by omega, rfl, hstep⟩⟩
    · rw [hc, hwrap]
      exact ⟨by omega, fun h => ⟨by omega, by omega, rfl, hstep⟩⟩
    · have hj := (hjump _ hfetch hcmd).2
      rw [hc]
      exact ⟨by omega, fun h => by omega⟩
  · rw [hk] at ht; cases ht
  · rw [hk] at ht; cases ht

theorem trip_table_full (config : Config)
    (hfull : config.state.current = MAX_INSTRUCTIONS + 1)
    (hload : config.state.loaded ≤ MAX_INSTRUCTIONS) :
    loop_trip config = Trip.stop (Result.exit Failure.tableFull) := by
  have h1 : config.state.current > config.state.loaded := by omega
  have h2 : config.state.current > MAX_INSTRUCTIONS := by omega
  simp only [loop_trip, h1, h2, if_true]

/-- C20: a full instruction table never halts normally.  When a run of
`read_and_execute` from the all-zero state returns, `loaded` is at most
`MAX_INSTRUCTIONS - 1` and `current` at most `MAX_INSTRUCTIONS`.  In every state
reached at the head of the loops `current` is at most `MAX_INSTRUCTIONS + 1`;
it is `MAX_INSTRUCTIONS + 1` only after a step on instruction number
`MAX_INSTRUCTIONS`, with the table full, that advanced the pointer by 1, and then
the next trip exits with the table full failure, exit code 107, which is how
the run ends. -/
theorem full_table_never_halts (instruction : Instruction) (input : Stream) :
    (∀ fuel warning final rest,
      read_and_execute fuel State.zero instruction input
        = some (Result.ok (warning, final, rest)) →
      final.loaded ≤ MAX_INSTRUCTIONS - 1 ∧ final.current ≤ MAX_INSTRUCTIONS) ∧
    (∀ n config, after_trips n (start instruction input) = some config →
      config.state.current ≤ MAX_INSTRUCTIONS + 1) ∧
    (∀ n config, after_trips n (start instruction input) = some config →
      config.state.current = MAX_INSTRUCTIONS + 1 →
      (∃ m previous, n = m + 1 ∧
        after_trips m (start instruction input) = some previous ∧
        previous.state.current = MAX_INSTRUCTIONS ∧
        previous.state.loaded = MAX_INSTRUCTIONS ∧
        execute previous.state = Result.ok config.state ∧
        config.state.current = previous.state.current + 1) ∧
      loop_trip config = Trip.stop (Result.exit Failure.tableFull) ∧
      (∀ fuel, read_and_execute (n + (fuel + 1)) State.zero instruction input
        = some (Result.exit Failure.tableFull))) ∧
    Failure.tableFull.exitCode = 107 := by
  have hstart := start_invariant instruction input
  refine ⟨?_, ?_, ?_, rfl⟩
  · intro fuel warning final rest hrun
    obtain ⟨n, config, hreach, hstop, hfinal⟩ :=
      run_returns_reached fuel instruction input warning final rest hrun
    obtain ⟨_, _, hgt, hfit⟩ := trip_return config warning final rest hstop
    rw [hfinal]
    simp only [MAX_INSTRUCTIONS] at *
    omega
  · intro n config hreach
    cases n with
    | zero =>
      simp only [after_trips, Option.some.injEq] at hreach
      subst hreach
      show (1 : Nat) ≤ MAX_INSTRUCTIONS + 1
      exact Nat.le_add_left 1 MAX_INSTRUCTIONS
    | succ m =>
      obtain ⟨previous, hprev, hlast⟩ := after_trips_last m _ config hreach
      exact (trip_pointer previous config
        (after_trips_invariant m _ previous hstart hprev) hlast).1
  · intro n config hreach hfull
    have hinv := after_trips_invariant n _ config hstart hreach
    have hstop := trip_table_full config hfull hinv.1
    refine ⟨?_, hstop, ?_⟩
    · cases n with
      | zero =>
        simp only [after_trips, Option.some.injEq] at hreach
        subst hreach
        have hone : (start instruction input).state.current = 1 := rfl
        rw [hone] at hfull
        simp only [MAX_INSTRUCTIONS] at hfull
        omega
      | succ m =>
        obtain ⟨previous, hprev, hlast⟩ := after_trips_last m _ config hreach
        obtain ⟨h1, h2, h3, h4⟩ := (trip_pointer previous config
          (after_trips_invariant m _ previous hstart hprev) hlast).2 hfull
        exact ⟨m, previous, rfl, hprev, h1, h2, h4, h3⟩
    · intro fuel
      rw [read_and_execute_start, run_loop_after_trips n (fuel + 1) _ config hreach,
        run_loop_trip, hstop]

/-! ## A program that fills the table -/

theorem after_trips_add (n : Nat) :
    ∀ (m : Nat) (config config1 config2 : Config),
      after_trips n config = some config1 → after_trips m config1 = some config2 →
      after_trips (n + m) config = some config2 := by
  induction n with
  | zero =>
    intro m config config1 config2 h1 h2
    simp only [after_trips, Option.some.injEq] at h1
    subst h1
    rw [Nat.zero_add]
    exact h2
  | succ n ih =>
    intro m config config1 config2 h1 h2
    have e : n + 1 + m = (n + m) + 1 := by omega
    rw [e, after_trips]
    rw [after_trips] at h1
    cases ht : loop_trip config with
    | next config3 =>
      rw [ht] at h1
      exact ih m config3 config1 config2 h1 h2
    | stop result =>
      rw [ht] at h1
      cases h1

theorem increments_head (j : Nat) :
    ∀ c ∈ (increments j).head?, ¬ (CH_ZERO ≤ c ∧ c ≤ CH_NINE) := by
  intro c hc
  cases j with
  | zero =>
    simp only [increments, List.head?_nil, Option.mem_def] at hc
    cases hc
  | succ j =>
    simp only [increments, List.head?_cons, Option.mem_def, Option.some.injEq] at hc
    subst hc
    decide

theorem execute_inc_step (state : State)
    (hpos : 1 ≤ state.current) (hcap : state.current ≤ MAX_INSTRUCTIONS)
    (hcmd : (state.instructions (state.current - 1)).command = Command.INC)
    (hmem : (state.instructions (state.current - 1)).address < MAX_MEMORY)
    (hcounter : state.counters (state.instructions (state.current - 1)).address
      < MAX_COUNTER_VALUE)
    (hexec : state.executed < MAX_EXECUTION) :
    execute state = Result.ok
      { state with
        counters := Function.update state.counters
          (state.instructions (state.current - 1)).address
          (state.counters (state.instructions (state.current - 1)).address + 1)
        current := state.current + 1
        executed := state.executed + 1 } := by
  have hrun := execute_eq_of_switch state _ hpos hcap hmem
    (execute_switch_inc state _ hcmd (Nat.ne_of_lt hcounter))
  simp only [MAX_INSTRUCTIONS, MAX_COUNTER_VALUE, MAX_EXECUTION, USHORT_SIZE, UINT_SIZE]
    at *
  have h4 : (state.executed + 1) % 4294967296 = state.executed + 1 := by omega
  have h5 : ¬ (state.executed + 1 > 1000000) := by omega
  have h6 : (state.counters (state.instructions (state.current - 1)).address + 1) % 65536
      = state.counters (state.instructions (state.current - 1)).address + 1 := by omega
  have h7 : (state.current + 1) % 65536 = state.current + 1 := by omega
  rw [h4, h6, h7, if_neg h5] at hrun
  exact hrun

theorem increment_read_trip (config : Config) (more : Stream)
    (hcur : config.state.current = config.state.loaded + 1)
    (hfit : config.state.current ≤ MAX_INSTRUCTIONS)
    (hin : config.input = CH_PLUS :: CH_ZERO :: more)
    (hmore : ∀ c ∈ more.head?, ¬ (CH_ZERO ≤ c ∧ c ≤ CH_NINE)) :
    ∃ config1, loop_trip config = Trip.next config1 ∧
      config1.state.current = config.state.current ∧
      config1.state.loaded = config.state.loaded + 1 ∧
      config1.state.executed = config.state.executed ∧
      config1.state.counters = config.state.counters ∧
      (config1.state.instructions config.state.loaded).command = Command.INC ∧
      (config1.state.instructions config.state.loaded).address = 0 ∧
      config1.input = more := by
  have hread : read_next ((config.state.loaded + 1) % USHORT_SIZE) config.instruction
      config.state.used config.input
      = Result.ok (false, { config.instruction with command := Command.INC, address := 0 },
          (if 0 > config.state.used then 0 else config.state.used), more) := by
    rw [hin]
    have haddr := read_address_decimal ((config.state.loaded + 1) % USHORT_SIZE) 0
      more (by decide) hmore
    have hzero : decimal 0 ++ more = CH_ZERO :: more := rfl
    rw [hzero] at haddr
    simp only [read_next, if_true, haddr]
  rcases loop_trip_cases config with
    ⟨_, hover, _⟩ | ⟨_, _, failure, hf, _⟩ | ⟨_, _, rest, hr, _⟩ |
    ⟨hgt, _, i2, rest, hr, hmem, hj, hlen, hk⟩ |
    ⟨hle, _⟩ | ⟨hle, _⟩ | ⟨hle, _⟩
  · omega
  · rw [hread] at hf
    cases hf
  · rw [hread] at hr
    simp only [Result.ok.injEq, Prod.mk.injEq] at hr
    exact absurd hr.1 (by decide)
  · rw [hread] at hr
    simp only [Result.ok.injEq, Prod.mk.injEq, true_and] at hr
    obtain ⟨hi, _, hrest⟩ := hr
    refine ⟨_, hk, rfl, rfl, rfl, rfl, ?_, ?_, hrest.symm⟩
    · show (Function.update config.state.instructions config.state.loaded i2
        config.state.loaded).command = Command.INC
      rw [Function.update_same, ← hi]
    · show (Function.update config.state.instructions config.state.loaded i2
        config.state.loaded).address = 0
      rw [Function.update_same, ← hi]
  · omega
  · omega
  · omega

theorem increment_step_trip (config : Config)
    (hcur : config.state.current = config.state.loaded)
    (hpos : 1 ≤ config.state.current)
    (hfit : config.state.current ≤ MAX_INSTRUCTIONS)
    (hcmd : (config.state.instructions (config.state.current - 1)).command = Command.INC)
    (haddr : (config.state.instructions (config.state.current - 1)).address = 0)
    (hcounter : config.state.counters 0 < MAX_COUNTER_VALUE)
    (hexec : config.state.executed < MAX_EXECUTION) :
    ∃ config2, loop_trip config = Trip.next config2 ∧
      config2.state.current = config.state.current + 1 ∧
      config2.state.loaded = config.state.loaded ∧
      config2.state.executed = config.state.executed + 1 ∧
      config2.state.counters 0 = config.state.counters 0 + 1 ∧
      config2.input = config.input := by
  have hstep := execute_inc_step config.state hpos hfit hcmd
    (by rw [haddr]; decide) (by rw [haddr]; exact hcounter) hexec
  have h1 : ¬ config.state.current > config.state.loaded := by omega
  have hnext : ∃ next, execute config.state = Result.ok next ∧
      next.current = config.state.current + 1 ∧ next.loaded = config.state.loaded ∧
      next.executed = config.state.executed + 1 ∧
      next.counters 0 = config.state.counters 0 + 1 := by
    refine ⟨_, hstep, rfl, rfl, rfl, ?_⟩
    show Function.update config.state.counters
        (config.state.instructions (config.state.current - 1)).address
        (config.state.counters (config.state.instructions (config.state.current - 1)).address
          + 1) 0
      = config.state.counters 0 + 1
    rw [haddr, Function.update_same]
  obtain ⟨next, hrun, h2, h3, h4, h5⟩ := hnext
  exact ⟨{ config with state := next }, by simp only [loop_trip, h1, if_false, hrun],
    h2, h3, h4, h5, rfl⟩

theorem increments_two_trips (config : Config) (k j : Nat) (hk : k < MAX_INSTRUCTIONS)
    (hcur : config.state.current = k + 1) (hl : config.state.loaded = k)
    (he : config.state.executed = k) (hc : config.state.counters 0 = k)
    (hin : config.input = increments (j + 1)) :
    ∃ config2, after_trips 2 config = some config2 ∧
      config2.state.current = k + 2 ∧ config2.state.loaded = k + 1 ∧
      config2.state.executed = k + 1 ∧ config2.state.counters 0 = k + 1 ∧
      config2.input = increments j := by
  obtain ⟨config1, ht1, c1, l1, e1, n1, cmd1, a1, in1⟩ :=
    increment_read_trip config (increments j) (by omega) (by omega) hin (increments_head j)
  have hidx : config1.state.current - 1 = config.state.loaded := by omega
  obtain ⟨config2, ht2, c2, l2, e2, n2, in2⟩ :=
    increment_step_trip config1 (by omega) (by omega) (by omega)
      (by rw [hidx]; exact cmd1) (by rw [hidx]; exact a1)
      (by
        rw [n1, hc]
        simp only [MAX_INSTRUCTIONS, MAX_COUNTER_VALUE] at *
        omega)
      (by
        rw [e1, he]
        simp only [MAX_INSTRUCTIONS, MAX_EXECUTION] at *
        omega)
  refine ⟨config2, ?_, by omega, by omega, by omega, ?_, by rw [in2, in1]⟩
  · simp only [after_trips, ht1, ht2]
  · rw [n2, n1, hc]

theorem increments_fill (instruction : Instruction) (k : Nat) :
    k ≤ MAX_INSTRUCTIONS →
    ∃ config, after_trips (2 * k) (start instruction (increments MAX_INSTRUCTIONS))
        = some config ∧
      config.state.current = k + 1 ∧ config.state.loaded = k ∧
      config.state.executed = k ∧ config.state.counters 0 = k ∧
      config.input = increments (MAX_INSTRUCTIONS - k) := by
  induction k with
  | zero =>
    intro _
    exact ⟨start instruction (increments MAX_INSTRUCTIONS), rfl, rfl, rfl, rfl, rfl, rfl⟩
  | succ k ih =>
    intro hk
    obtain ⟨config, hreach, hc, hl, he, hn, hin⟩ := ih (by omega)
    have hleft : MAX_INSTRUCTIONS - k = (MAX_INSTRUCTIONS - (k + 1)) + 1 := by omega
    rw [hleft] at hin
    obtain ⟨config2, htwo, c2, l2, e2, n2, in2⟩ :=
      increments_two_trips config k (MAX_INSTRUCTIONS - (k + 1)) (by omega) hc hl he hn hin
    have e : 2 * (k + 1) = 2 * k + 2 := by omega
    refine ⟨config2, ?_, c2, l2, e2, n2, in2⟩
    rw [e]
    exact after_trips_add (2 * k) 2 _ config config2 hreach htwo

theorem full_table_never_halts_witness :
    read_and_execute (2 * MAX_INSTRUCTIONS + (0 + 1)) State.zero Instruction.zero
        (increments MAX_INSTRUCTIONS)
      = some (Result.exit Failure.tableFull) := by
  obtain ⟨config, hreach, hcur, _⟩ :=
    increments_fill Instruction.zero MAX_INSTRUCTIONS (Nat.le_refl _)
  exact ((full_table_never_halts Instruction.zero (increments MAX_INSTRUCTIONS)).2.2.1
    (2 * MAX_INSTRUCTIONS) config hreach hcur).2.2 0

end CounterMachine
